import Mathlib

/-!
# OsuMoteVR: sensor smoothing and orientation update

A shallow embedding of the motion pipeline of `include/render.h` and
`src/render.cpp`: the moving-average windows of `WiiData`, the pose operations
of `PlacedObject`, and `HandleEvent`, which links the two.

The C++ `float`/`double` values are idealised as elements of a field `F`
(exact arithmetic).  Every definition is generic in `F`, so it runs on `ℚ`;
the trigonometric facts are proved on `ℝ`.
-/

namespace OsuMoteVR

/-! ## External scalar functions -/

/-- Scalar functions and constant which the program takes from `<cmath>` and glm:
`cos`, `sin` (used by `glm::quat(vec3)`) and the constant `M_PI`. -/
class Libm (F : Type) where
  /-- `glm::cos` on a scalar. -/
  cos : F → F
  /-- `glm::sin` on a scalar. -/
  sin : F → F
  /-- The constant `M_PI`. -/
  M_PI : F

/-- Exact real arithmetic: the real cosine and sine, and `M_PI` read as `π`. -/
noncomputable instance instLibmReal : Libm ℝ where
  cos := Real.cos
  sin := Real.sin
  M_PI := Real.pi

/-- The constant `M_PI_2`, half of `M_PI`. -/
def M_PI_2 {F : Type} [Field F] [Libm F] : F := Libm.M_PI / 2

/-! ## glm vectors and quaternions -/

/-- The three components of a `glm::vec3`. -/
structure vec3 (F : Type) where
  x : F
  y : F
  z : F

/-- The four components of a `glm::quat`. -/
@[ext]
structure quat (F : Type) where
  w : F
  x : F
  y : F
  z : F

/-- Hamilton product of glm, `operator*(qua const& p, qua const& q)`, as written
in `glm/detail/type_quat.inl`; `p` is the left operand. -/
def quat.mul {F : Type} [Field F] (p q : quat F) : quat F :=
  { w := p.w * q.w - p.x * q.x - p.y * q.y - p.z * q.z
    x := p.w * q.x + p.x * q.w + p.y * q.z - p.z * q.y
    y := p.w * q.y + p.y * q.w + p.z * q.x - p.x * q.z
    z := p.w * q.z + p.z * q.w + p.x * q.y - p.y * q.x }

instance {F : Type} [Field F] : Mul (quat F) := ⟨quat.mul⟩

/-- The glm constructor `qua(vec<3> const& eulerAngle)`, as written in
`glm/detail/type_quat.inl`: half-angle cosines `c` and sines `s` of the three
components, then the four products. -/
def quat.ofEuler {F : Type} [Field F] [Libm F] (eulerAngle : vec3 F) : quat F :=
  let c : vec3 F :=
    ⟨Libm.cos (eulerAngle.x * (1 / 2)), Libm.cos (eulerAngle.y * (1 / 2)),
      Libm.cos (eulerAngle.z * (1 / 2))⟩
  let s : vec3 F :=
    ⟨Libm.sin (eulerAngle.x * (1 / 2)), Libm.sin (eulerAngle.y * (1 / 2)),
      Libm.sin (eulerAngle.z * (1 / 2))⟩
  { w := c.x * c.y * c.z + s.x * s.y * s.z
    x := s.x * c.y * c.z - c.x * s.y * s.z
    y := c.x * s.y * c.z + s.x * c.y * s.z
    z := c.x * c.y * s.z - s.x * s.y * c.z }

/-! ## PlacedObject -/

/-- The value of the macro `ROTATION_SPEED`, `10 * 100 / 60`, read as a scalar. -/
def ROTATION_SPEED {F : Type} [Field F] : F := 10 * 100 / 60

/-- The value of the macro `MOVEMENT_SPEED`, `10 * 100 / 60`, read as a scalar. -/
def MOVEMENT_SPEED {F : Type} [Field F] : F := 10 * 100 / 60

/-- The expression `r * ROTATION_SPEED * delta_t` of `UpdateOrientation` after the
preprocessor has pasted the macro body: `r * 10 * 100 / 60 * delta_t`, a product
of scalars evaluated left to right. -/
def scaleRotation {F : Type} [Field F] (r delta_t : F) : F :=
  r * 10 * 100 / 60 * delta_t

/-- The expression `v * MOVEMENT_SPEED * delta_t` of `UpdatePosition` after macro
expansion: `v * 10 * 100 / 60 * delta_t`. -/
def scaleMovement {F : Type} [Field F] (v delta_t : F) : F :=
  v * 10 * 100 / 60 * delta_t

/-- Placement of one object instance (`struct PlacedObject`). -/
structure PlacedObject (F : Type) where
  obj_name : String
  positionX : F
  positionY : F
  positionZ : F
  scaleX : F
  scaleY : F
  scaleZ : F
  quaternion : quat F

/-- `PlacedObject::SetOrientation`. -/
def PlacedObject.SetOrientation {F : Type} [Field F] [Libm F]
    (o : PlacedObject F) (yaw roll pitch : F) : PlacedObject F :=
  { o with quaternion := quat.ofEuler ⟨yaw, roll, pitch⟩ }

/-- `PlacedObject::UpdateOrientation`. -/
def PlacedObject.UpdateOrientation {F : Type} [Field F] [Libm F]
    (o : PlacedObject F) (yaw roll pitch delta_t : F) : PlacedObject F :=
  let yaw := scaleRotation yaw delta_t
  let roll := scaleRotation roll delta_t
  let pitch := scaleRotation pitch delta_t
  let new_quaternion : quat F := quat.ofEuler ⟨yaw, roll, pitch⟩
  { o with quaternion := o.quaternion * new_quaternion }

/-- `PlacedObject::SetPosition`. -/
def PlacedObject.SetPosition {F : Type}
    (o : PlacedObject F) (x y z : F) : PlacedObject F :=
  { o with positionX := x, positionY := y, positionZ := z }

/-- `PlacedObject::UpdatePosition`. -/
def PlacedObject.UpdatePosition {F : Type} [Field F]
    (o : PlacedObject F) (x y z delta_t : F) : PlacedObject F :=
  let x := scaleMovement x delta_t
  let y := scaleMovement y delta_t
  let z := scaleMovement z delta_t
  o.SetPosition (o.positionX + x) (o.positionY + y) (o.positionZ + z)

/-! ## WiiData -/

/-- The macro `GYROSCOPE_MOVING_AVERAGE_WINDOW_SIZE`. -/
abbrev GYROSCOPE_MOVING_AVERAGE_WINDOW_SIZE : ℕ := 8

/-- The macro `ACCELEROMETER_MOVING_AVERAGE_WINDOW_SIZE`. -/
abbrev ACCELEROMETER_MOVING_AVERAGE_WINDOW_SIZE : ℕ := 8

/-- Sensor history (`struct WiiData`, without the `CWii` handle).  The two window
sizes are the macros of the struct, taken as parameters `N` (gyroscope) and `M`
(accelerometer); the program uses `WiiData F 8 8`. -/
structure WiiData (F : Type) (N M : ℕ) where
  connectedWiimotes : ℤ
  gyroReadings : Fin N → Fin 3 → F
  gyroReadingsIndex : ℤ
  accelReadings : Fin M → Fin 3 → F
  accelReadingsIndex : ℤ

/-- The assignment `a[i][j] = v` on a two-dimensional array. -/
def setEntry {F : Type} {N : ℕ} (a : Fin N → Fin 3 → F) (i : Fin N) (j : Fin 3) (v : F) :
    Fin N → Fin 3 → F :=
  fun i' j' => if i' = i ∧ j' = j then v else a i' j'

/-- The constructor `WiiData::WiiData()`: zeroed windows, cursors and count 0. -/
def WiiData.init {F : Type} [Field F] {N M : ℕ} : WiiData F N M :=
  { connectedWiimotes := 0
    gyroReadings := fun _ _ => 0
    gyroReadingsIndex := 0
    accelReadings := fun _ _ => 0
    accelReadingsIndex := 0 }

/-- `WiiData::UpdateGyro`.  A cursor outside the array (an out-of-bounds write in
C++) gives `none`. -/
def WiiData.UpdateGyro {F : Type} {N M : ℕ} (d : WiiData F N M) (yaw roll pitch : F) :
    Option (WiiData F N M) :=
  if h : 0 ≤ d.gyroReadingsIndex ∧ d.gyroReadingsIndex < (N : ℤ) then
    let i : Fin N := ⟨d.gyroReadingsIndex.toNat, by omega⟩
    let g := setEntry d.gyroReadings i 0 yaw
    let g := setEntry g i 1 roll
    let g := setEntry g i 2 pitch
    let idx := d.gyroReadingsIndex + 1
    some { d with gyroReadings := g
                  gyroReadingsIndex := if idx = (N : ℤ) then 0 else idx }
  else none

/-- `WiiData::GetAvgGyroValues`; the three outputs are returned as
`(yaw, roll, pitch)`. -/
def WiiData.GetAvgGyroValues {F : Type} [Field F] {N M : ℕ} (d : WiiData F N M) :
    F × F × F :=
  let acc : F × F × F :=
    (List.finRange N).foldl
      (fun a i => (a.1 + d.gyroReadings i 0, a.2.1 + d.gyroReadings i 1,
        a.2.2 + d.gyroReadings i 2))
      (0, 0, 0)
  (acc.1 / (N : F), acc.2.1 / (N : F), acc.2.2 / (N : F))

/-- `WiiData::RemoveGravityAccel`: the body is empty, the values are unchanged. -/
def WiiData.RemoveGravityAccel {F : Type} {N M : ℕ} (_d : WiiData F N M) (x y z : F) :
    F × F × F :=
  (x, y, z)

/-- `WiiData::UpdateAccel`.  A cursor outside the array gives `none`. -/
def WiiData.UpdateAccel {F : Type} {N M : ℕ} (d : WiiData F N M) (x y z : F) :
    Option (WiiData F N M) :=
  let (x, y, z) := d.RemoveGravityAccel x y z
  if h : 0 ≤ d.accelReadingsIndex ∧ d.accelReadingsIndex < (M : ℤ) then
    let i : Fin M := ⟨d.accelReadingsIndex.toNat, by omega⟩
    let a := setEntry d.accelReadings i 0 x
    let a := setEntry a i 1 y
    let a := setEntry a i 2 z
    let idx := d.accelReadingsIndex + 1
    some { d with accelReadings := a
                  accelReadingsIndex := if idx = (M : ℤ) then 0 else idx }
  else none

/-- `WiiData::GetAvgAccelValues`; the three outputs are returned as `(x, y, z)`. -/
def WiiData.GetAvgAccelValues {F : Type} [Field F] {N M : ℕ} (d : WiiData F N M) :
    F × F × F :=
  let acc : F × F × F :=
    (List.finRange M).foldl
      (fun a i => (a.1 + d.accelReadings i 0, a.2.1 + d.accelReadings i 1,
        a.2.2 + d.accelReadings i 2))
      (0, 0, 0)
  (acc.1 / (M : F), acc.2.1 / (M : F), acc.2.2 / (M : F))

/-! ## The controller event handler -/

/-- What `HandleEvent` reads from the controller object (wiicpp, an external
library): the three outputs of `Gyroscope.GetRates` and the three outputs of
`Accelerometer.GetGravityVector`, each in the order of the call's arguments. -/
structure CWiimote (F : Type) where
  GetRates : F × F × F
  GetGravityVector : F × F × F

/-- The global variables of `render.h` that the motion pipeline touches. -/
structure Globals (F : Type) where
  previous_time : F
  current_time : F
  g_Wii : WiiData F GYROSCOPE_MOVING_AVERAGE_WINDOW_SIZE ACCELEROMETER_MOVING_AVERAGE_WINDOW_SIZE
  placed_wiimote : PlacedObject F

/-- The initial value of the global `placed_wiimote`. -/
def placed_wiimote_init {F : Type} [Field F] [Libm F] : PlacedObject F :=
  { obj_name := "wiimote"
    positionX := 0, positionY := 0, positionZ := 0
    scaleX := 1, scaleY := 11 / 10, scaleZ := 1
    quaternion := quat.ofEuler ⟨0, 0, M_PI_2⟩ }

/-- The gyroscope half of `HandleEvent` up to the call of `UpdateOrientation`:
read the rates, record them, average, convert degrees to radians.  Returns the
new sensor history and the values of `(yaw_rate, roll_rate, pitch_rate)` that
are passed on. -/
def HandleEvent_gyro {F : Type} [Field F] [Libm F] {N M : ℕ}
    (w : WiiData F N M) (wm : CWiimote F) : Option (WiiData F N M × (F × F × F)) :=
  let (roll_rate, pitch_rate, yaw_rate) := wm.GetRates
  match w.UpdateGyro yaw_rate roll_rate pitch_rate with
  | none => none
  | some w =>
    let (yaw_rate, roll_rate, pitch_rate) := w.GetAvgGyroValues
    let yaw_rate := yaw_rate * Libm.M_PI / 180
    let roll_rate := -roll_rate * Libm.M_PI / 180
    let pitch_rate := pitch_rate * Libm.M_PI / 180
    some (w, (yaw_rate, roll_rate, pitch_rate))

/-- The accelerometer half of `HandleEvent`: read the gravity vector into
`(accel_z, accel_x, accel_y)`, record `(accel_x, accel_y, accel_z)` and average.
The averages are computed and not used (the call of `UpdatePosition` is
commented out).  Returns the new sensor history and the averages. -/
def HandleEvent_accel {F : Type} [Field F] {N M : ℕ}
    (w : WiiData F N M) (wm : CWiimote F) : Option (WiiData F N M × (F × F × F)) :=
  let (accel_z, accel_x, accel_y) := wm.GetGravityVector
  match w.UpdateAccel accel_x accel_y accel_z with
  | none => none
  | some w => some (w, w.GetAvgAccelValues)

/-- `HandleEvent` on the global state. -/
def HandleEvent {F : Type} [Field F] [Libm F] (g : Globals F) (wm : CWiimote F) :
    Option (Globals F) :=
  match HandleEvent_gyro g.g_Wii wm with
  | none => none
  | some (w, (yaw_rate, roll_rate, pitch_rate)) =>
    let p := g.placed_wiimote.UpdateOrientation yaw_rate roll_rate pitch_rate
      (g.current_time - g.previous_time)
    match HandleEvent_accel w wm with
    | none => none
    | some (w, _) => some { g with g_Wii := w, placed_wiimote := p }

/-! ## Sequences of calls -/

/-- Successive calls of `UpdateGyro`, one for each triple `(yaw, roll, pitch)` of
the list, first to last. -/
def UpdateGyro_seq {F : Type} {N M : ℕ} :
    WiiData F N M → List (F × F × F) → Option (WiiData F N M)
  | d, [] => some d
  | d, s :: l =>
    match d.UpdateGyro s.1 s.2.1 s.2.2 with
    | none => none
    | some d => UpdateGyro_seq d l

/-- Successive calls of `HandleEvent`, one for each controller reading of the
list, first to last. -/
def HandleEvent_seq {F : Type} [Field F] [Libm F] :
    Globals F → List (CWiimote F) → Option (Globals F)
  | g, [] => some g
  | g, wm :: l =>
    match HandleEvent g wm with
    | none => none
    | some g => HandleEvent_seq g l

/-- The call `placed_wiimote.SetOrientation(yaw, roll, pitch)` on the global
state, as `KeyCallback` makes it. -/
def Globals.SetOrientation {F : Type} [Field F] [Libm F] (g : Globals F)
    (yaw roll pitch : F) : Globals F :=
  { g with placed_wiimote := g.placed_wiimote.SetOrientation yaw roll pitch }

/-- The call `placed_wiimote.SetPosition(x, y, z)` on the global state, as
`KeyCallback` makes it. -/
def Globals.SetPosition {F : Type} (g : Globals F) (x y z : F) : Globals F :=
  { g with placed_wiimote := g.placed_wiimote.SetPosition x y z }

/-- Successive calls of `UpdateAccel`, one for each triple `(x, y, z)` of the
list, first to last. -/
def UpdateAccel_seq {F : Type} {N M : ℕ} :
    WiiData F N M → List (F × F × F) → Option (WiiData F N M)
  | d, [] => some d
  | d, s :: l =>
    match d.UpdateAccel s.1 s.2.1 s.2.2 with
    | none => none
    | some d => UpdateAccel_seq d l

/-- One call of a record operation of `WiiData`, with its arguments. -/
inductive RecordCall (F : Type) where
  | UpdateGyro (yaw roll pitch : F)
  | UpdateAccel (x y z : F)

/-- Whether the call is a call of `UpdateGyro`. -/
def RecordCall.isGyro {F : Type} : RecordCall F → Bool
  | RecordCall.UpdateGyro _ _ _ => true
  | RecordCall.UpdateAccel _ _ _ => false

/-- Whether the call is a call of `UpdateAccel`. -/
def RecordCall.isAccel {F : Type} : RecordCall F → Bool
  | RecordCall.UpdateGyro _ _ _ => false
  | RecordCall.UpdateAccel _ _ _ => true

/-- The effect of one record call. -/
def WiiData.call {F : Type} {N M : ℕ} (d : WiiData F N M) : RecordCall F → Option (WiiData F N M)
  | RecordCall.UpdateGyro yaw roll pitch => d.UpdateGyro yaw roll pitch
  | RecordCall.UpdateAccel x y z => d.UpdateAccel x y z

/-- Record calls in any interleaving, first to last. -/
def WiiData.calls {F : Type} {N M : ℕ} :
    WiiData F N M → List (RecordCall F) → Option (WiiData F N M)
  | d, [] => some d
  | d, c :: l =>
    match d.call c with
    | none => none
    | some d => WiiData.calls d l

/-! ## Norm and sequences of pose calls -/

/-- The glm function `dot` on two quaternions. -/
def quat.dot {F : Type} [Field F] (a b : quat F) : F :=
  a.w * b.w + a.x * b.x + a.y * b.y + a.z * b.z

/-- One call of a pose operation of `PlacedObject`, with its arguments. -/
inductive PoseCall (F : Type) where
  | SetOrientation (yaw roll pitch : F)
  | UpdateOrientation (yaw roll pitch delta_t : F)
  | SetPosition (x y z : F)
  | UpdatePosition (x y z delta_t : F)

/-- The effect of one pose call. -/
def PlacedObject.call {F : Type} [Field F] [Libm F] (o : PlacedObject F) :
    PoseCall F → PlacedObject F
  | PoseCall.SetOrientation yaw roll pitch => o.SetOrientation yaw roll pitch
  | PoseCall.UpdateOrientation yaw roll pitch delta_t =>
    o.UpdateOrientation yaw roll pitch delta_t
  | PoseCall.SetPosition x y z => o.SetPosition x y z
  | PoseCall.UpdatePosition x y z delta_t => o.UpdatePosition x y z delta_t

/-- Pose calls in any order, first to last. -/
def PlacedObject.calls {F : Type} [Field F] [Libm F] (o : PlacedObject F)
    (l : List (PoseCall F)) : PlacedObject F :=
  l.foldl PlacedObject.call o

/-! ## The key callback -/

/-- The GLFW key code `GLFW_KEY_SPACE`. -/
def GLFW_KEY_SPACE : ℤ := 32

/-- The GLFW action code `GLFW_PRESS`. -/
def GLFW_PRESS : ℤ := 1

/-- `KeyCallback`, restricted to the globals of the motion pipeline: on a press of
Space the pose is reset.  The other branches (close the window, reload the
shaders, move the camera) touch none of these globals. -/
def KeyCallback {F : Type} [Field F] [Libm F] (g : Globals F)
    (key _scancode action _mod : ℤ) : Globals F :=
  if key = GLFW_KEY_SPACE ∧ action = GLFW_PRESS then
    (g.SetOrientation 0 0 M_PI_2).SetPosition 0 0 0
  else g

/-! ## The controller thread -/

/-- The values of `CWiimote::GetEvent()` that `ControllerHandlerThread` tells
apart; every other value of the wiicpp enumeration is `EVENT_OTHER`. -/
inductive EventTypes where
  | EVENT_EVENT
  | EVENT_DISCONNECT
  | EVENT_UNEXPECTED_DISCONNECT
  | EVENT_OTHER
  deriving DecidableEq

/-- The globals together with the two locals `exit` and `reload_wiimotes` of
`ControllerHandlerThread`. -/
structure ThreadState (F : Type) where
  g : Globals F
  exit : ℤ
  reload_wiimotes : ℤ

/-- What one iteration of the loop of `ControllerHandlerThread` reads from
outside: the clock, the result of `Poll()`, and for each controller its event
kind and its sensor readings. -/
structure Polled (F : Type) where
  glfwGetTime : F
  Poll : ℤ
  wiimotes : List (EventTypes × CWiimote F)

/-- The `switch` on the event kind of one controller. -/
def ControllerHandlerThread_switch {F : Type} [Field F] [Libm F]
    (s : ThreadState F) (ev : EventTypes) (wm : CWiimote F) : Option (ThreadState F) :=
  match ev with
  | EventTypes.EVENT_EVENT =>
    match HandleEvent s.g wm with
    | none => none
    | some g => some { s with g := g }
  | EventTypes.EVENT_DISCONNECT => some { s with exit := 1 }
  | EventTypes.EVENT_UNEXPECTED_DISCONNECT => some { s with reload_wiimotes := 1 }
  | EventTypes.EVENT_OTHER => some s

/-- The `for` loop over the controllers.  The first component is a log: the
global state at each call of `HandleEvent`, in order. -/
def ControllerHandlerThread_for {F : Type} [Field F] [Libm F] :
    ThreadState F → List (EventTypes × CWiimote F) →
      List (Globals F) × Option (ThreadState F)
  | s, [] => ([], some s)
  | s, e :: rest =>
    let log := if e.1 = EventTypes.EVENT_EVENT then [s.g] else []
    match ControllerHandlerThread_switch s e.1 e.2 with
    | none => (log, none)
    | some s' =>
      (log ++ (ControllerHandlerThread_for s' rest).1, (ControllerHandlerThread_for s' rest).2)

/-- The body of the `while` loop: read the clock into `current_time`, clear
`reload_wiimotes`, poll and dispatch, then copy `current_time` into
`previous_time`.  The first component is the log of the `for` loop. -/
def ControllerHandlerThread_body {F : Type} [Field F] [Libm F]
    (s : ThreadState F) (inp : Polled F) : List (Globals F) × Option (ThreadState F) :=
  let s : ThreadState F := { s with g := { s.g with current_time := inp.glfwGetTime } }
  let s : ThreadState F := if s.reload_wiimotes ≠ 0 then { s with reload_wiimotes := 0 } else s
  let r := if inp.Poll ≠ 0 then ControllerHandlerThread_for s inp.wiimotes else ([], some s)
  (r.1, r.2.map fun s => { s with g := { s.g with previous_time := s.g.current_time } })

/-- The `while` loop, run on a list of successive readings (it stops when the
list is used up).  The first component is the log of all iterations. -/
def ControllerHandlerThread_while {F : Type} [Field F] [Libm F] :
    ThreadState F → List (Polled F) → List (Globals F) × Option (ThreadState F)
  | s, [] => ([], some s)
  | s, inp :: rest =>
    if s.exit = 0 ∧ s.g.g_Wii.connectedWiimotes > 0 then
      match (ControllerHandlerThread_body s inp).2 with
      | none => ((ControllerHandlerThread_body s inp).1, none)
      | some s' =>
        ((ControllerHandlerThread_body s inp).1 ++ (ControllerHandlerThread_while s' rest).1,
          (ControllerHandlerThread_while s' rest).2)
    else ([], some s)

/-! ## Lemmas on the circular windows -/

section window

variable {F : Type} [Field F]

/-- Slot `i mod N` of a window, read at column `c`. -/
def slotAt {N : ℕ} (a : Fin N → Fin 3 → F) (i : ℕ) (c : Fin 3) : F :=
  if h : 0 < N then a ⟨i % N, Nat.mod_lt i h⟩ c else 0

/-- Slot `i mod N` of a window as a triple. -/
def rowAt {N : ℕ} (a : Fin N → Fin 3 → F) (i : ℕ) : F × F × F :=
  (slotAt a i 0, slotAt a i 1, slotAt a i 2)

/-- Column `c` of a triple. -/
def col (c : Fin 3) (t : F × F × F) : F :=
  if c = 0 then t.1 else if c = 1 then t.2.1 else t.2.2

/-- The three assignments that store one triple in slot `i`. -/
def writeRow {N : ℕ} (a : Fin N → Fin 3 → F) (i : Fin N) (x y z : F) : Fin N → Fin 3 → F :=
  setEntry (setEntry (setEntry a i 0 x) i 1 y) i 2 z

/-- A window `a` with cursor `idx` holds the history `p`: the cursor is the
length of `p` modulo `N`, and each of the last `N` entries of `p` sits in the
slot of its position modulo `N`. -/
def Holds {N : ℕ} (a : Fin N → Fin 3 → F) (idx : ℤ) (p : List (F × F × F)) : Prop :=
  0 < N ∧ idx = ((p.length % N : ℕ) : ℤ) ∧
    ∀ i, i < p.length → p.length ≤ i + N → p[i]? = some (rowAt a i)

theorem col_rowAt {N : ℕ} (a : Fin N → Fin 3 → F) (i : ℕ) (c : Fin 3) :
    col c (rowAt a i) = slotAt a i c := by
  fin_cases c <;> simp [col, rowAt]

theorem slotAt_add_size {N : ℕ} (a : Fin N → Fin 3 → F) (i : ℕ) (c : Fin 3) :
    slotAt a (i + N) c = slotAt a i c := by
  simp [slotAt]

theorem slotAt_coe {N : ℕ} (a : Fin N → Fin 3 → F) (i : Fin N) (c : Fin 3) :
    slotAt a (i : ℕ) c = a i c := by
  have h : 0 < N := Fin.pos i
  simp [slotAt, h, Nat.mod_eq_of_lt i.isLt]

theorem rowAt_writeRow {N : ℕ} (a : Fin N → Fin 3 → F) (r : ℕ) (hr : r < N) (x y z : F)
    (k : ℕ) :
    rowAt (writeRow a ⟨r, hr⟩ x y z) k = if k % N = r then (x, y, z) else rowAt a k := by
  have h : 0 < N := by omega
  by_cases hk : k % N = r
  · simp [rowAt, slotAt, writeRow, setEntry, h, hk]
  · simp [rowAt, slotAt, writeRow, setEntry, h, hk, Fin.ext_iff]

/-- The accumulation loop of the averaging functions adds up each column. -/
theorem foldl_columns {N : ℕ} (a : Fin N → Fin 3 → F) (L : List (Fin N)) (acc : F × F × F) :
    L.foldl (fun s i => (s.1 + a i 0, s.2.1 + a i 1, s.2.2 + a i 2)) acc =
      (acc.1 + (L.map fun i => a i 0).sum, acc.2.1 + (L.map fun i => a i 1).sum,
        acc.2.2 + (L.map fun i => a i 2).sum) := by
  induction L generalizing acc with
  | nil => simp
  | cons i L ih => simp [ih, add_assoc]

/-- The sum of a column over the slots, as a sum over `List.range N`. -/
theorem sum_finRange_eq {N : ℕ} (a : Fin N → Fin 3 → F) (c : Fin 3) :
    ((List.finRange N).map fun i => a i c).sum = ((List.range N).map fun i => slotAt a i c).sum := by
  rw [← List.map_coe_finRange, List.map_map]
  congr 1
  apply List.map_congr_left
  intro i _
  simp [slotAt_coe]

/-- A sum over one period of a periodic function does not depend on the start. -/
theorem sum_period (N : ℕ) (f : ℕ → F) (hf : ∀ i, f (i + N) = f i) (n : ℕ) :
    ((List.range N).map fun i => f (n + i)).sum = ((List.range N).map f).sum := by
  induction n with
  | zero => simp
  | succ n ih =>
    rw [← ih]
    have h1 := List.sum_range_succ (fun i => f (n + i)) N
    have h2 := List.sum_range_succ' (fun i => f (n + i)) N
    simp only [add_zero, hf] at h1 h2
    have h3 : (List.map (fun i => f (n + 1 + i)) (List.range N)) =
        (List.map (fun i => f (n + (i + 1))) (List.range N)) := by
      apply List.map_congr_left
      intro i _
      congr 1
      omega
    rw [h3]
    rw [h1] at h2
    exact (add_left_cancel (a := f n) (by rw [← h2, add_comm])).symm

/-- Two positions less than `N` apart fall in different slots. -/
theorem mod_ne_of_lt_size {N i n : ℕ} (h1 : i < n) (h2 : n < i + N) : i % N ≠ n % N := by
  intro h
  have h3 : (N : ℤ) ∣ (n : ℤ) - (i : ℤ) := by
    have := (Nat.modEq_iff_dvd (n := N) (a := i) (b := n)).1 h
    simpa using this
  obtain ⟨k, hk⟩ := h3
  have hk1 : 0 < k := by
    by_contra hneg
    have : (N : ℤ) * k ≤ 0 := mul_nonpos_of_nonneg_of_nonpos (by positivity) (by omega)
    omega
  have : (N : ℤ) * 1 ≤ (N : ℤ) * k := mul_le_mul_of_nonneg_left (by omega) (by positivity)
  omega

/-- The cursor update `if (++idx == N) idx = 0` keeps the cursor equal to the
number of writes modulo `N`. -/
theorem cursor_step {N : ℕ} (hN : 0 < N) (n : ℕ) :
    (if ((n % N : ℕ) : ℤ) + 1 = (N : ℤ) then (0 : ℤ) else ((n % N : ℕ) : ℤ) + 1) =
      (((n + 1) % N : ℕ) : ℤ) := by
  have hlt : n % N < N := Nat.mod_lt n hN
  have h : (n + 1) % N = (n % N + 1) % N := by rw [Nat.add_mod, Nat.add_mod (n % N)]; simp
  by_cases hc : n % N + 1 = N
  · have : ((n % N : ℕ) : ℤ) + 1 = (N : ℤ) := by exact_mod_cast hc
    rw [if_pos this, h, hc, Nat.mod_self]; rfl
  · have : ¬ ((n % N : ℕ) : ℤ) + 1 = (N : ℤ) := by intro h'; exact hc (by exact_mod_cast h')
    rw [if_neg this, h, Nat.mod_eq_of_lt (show n % N + 1 < N by omega)]; simp

/-- Storing one triple at the cursor and advancing it extends the history held. -/
theorem Holds_writeRow {N : ℕ} (a : Fin N → Fin 3 → F) (p : List (F × F × F))
    (hN : 0 < N) (hold : ∀ i, i < p.length → p.length ≤ i + N → p[i]? = some (rowAt a i))
    (x y z : F) (hr : p.length % N < N) :
    Holds (writeRow a ⟨p.length % N, hr⟩ x y z) (((p.length + 1) % N : ℕ) : ℤ)
      (p ++ [(x, y, z)]) := by
  refine ⟨hN, by simp, ?_⟩
  intro i hi hle
  rw [rowAt_writeRow]
  simp only [List.length_append, List.length_singleton] at hi hle
  by_cases hip : i = p.length
  · subst hip
    simp
  · have hlt : i < p.length := by omega
    have hne : i % N ≠ p.length % N := mod_ne_of_lt_size hlt (by omega)
    rw [if_neg hne, List.getElem?_append_left hlt]
    exact hold i hlt (by omega)

/-- `UpdateGyro` succeeds on a window that holds a history, and the new window
holds the history extended by the triple recorded. -/
theorem UpdateGyro_Holds {N M : ℕ} (d : WiiData F N M) (p : List (F × F × F))
    (h : Holds d.gyroReadings d.gyroReadingsIndex p) (yaw roll pitch : F) :
    ∃ d', d.UpdateGyro yaw roll pitch = some d' ∧
      Holds d'.gyroReadings d'.gyroReadingsIndex (p ++ [(yaw, roll, pitch)]) := by
  obtain ⟨hN, hidx, hold⟩ := h
  have hr : p.length % N < N := Nat.mod_lt _ hN
  have hc : 0 ≤ d.gyroReadingsIndex ∧ d.gyroReadingsIndex < (N : ℤ) := by
    rw [hidx]; exact ⟨by positivity, by exact_mod_cast hr⟩
  have hnat : d.gyroReadingsIndex.toNat = p.length % N := by
    rw [hidx]; exact Int.toNat_ofNat _
  refine ⟨_, by rw [WiiData.UpdateGyro, dif_pos hc], ?_⟩
  have key := Holds_writeRow d.gyroReadings p hN hold yaw roll pitch hr
  rw [← cursor_step hN, ← hidx] at key
  simpa [writeRow, hnat] using key

/-- A run of `UpdateGyro` calls succeeds on a window that holds a history, and
the final window holds the history followed by the triples recorded. -/
theorem UpdateGyro_seq_Holds {N M : ℕ} (l : List (F × F × F)) (d : WiiData F N M)
    (p : List (F × F × F)) (h : Holds d.gyroReadings d.gyroReadingsIndex p) :
    ∃ d', UpdateGyro_seq d l = some d' ∧
      Holds d'.gyroReadings d'.gyroReadingsIndex (p ++ l) := by
  induction l generalizing d p with
  | nil => exact ⟨d, rfl, by simpa using h⟩
  | cons s l ih =>
    obtain ⟨d1, h1, hold1⟩ := UpdateGyro_Holds d p h s.1 s.2.1 s.2.2
    obtain ⟨d2, h2, hold2⟩ := ih d1 _ hold1
    refine ⟨d2, by simp [UpdateGyro_seq, h1, h2], ?_⟩
    simpa using hold2

/-- The last `N` entries of a history held by a window are its slots, read from
position `p.length - N` on. -/
theorem drop_of_Holds {N : ℕ} (a : Fin N → Fin 3 → F) (idx : ℤ) (p : List (F × F × F))
    (h : Holds a idx p) (hp : N ≤ p.length) :
    p.drop (p.length - N) = (List.range N).map fun i => rowAt a (p.length - N + i) := by
  obtain ⟨_, _, hold⟩ := h
  apply List.ext_getElem?
  intro i
  rw [List.getElem?_drop]
  by_cases hi : i < N
  · rw [hold _ (by omega) (by omega), List.getElem?_map, List.getElem?_range hi]
    rfl
  · rw [List.getElem?_eq_none (by omega), List.getElem?_eq_none (by simp; omega)]

/-- The sum of a column over the slots is the sum of that column over the last
`N` entries of the history held. -/
theorem sum_of_Holds {N : ℕ} (a : Fin N → Fin 3 → F) (idx : ℤ) (p : List (F × F × F))
    (h : Holds a idx p) (hp : N ≤ p.length) (c : Fin 3) :
    ((List.finRange N).map fun i => a i c).sum = ((p.drop (p.length - N)).map (col c)).sum := by
  rw [sum_finRange_eq, drop_of_Holds a idx p h hp, List.map_map,
    ← sum_period N (fun i => slotAt a i c) (fun i => slotAt_add_size a i c) (p.length - N)]
  congr 1
  apply List.map_congr_left
  intro i _
  simp [col_rowAt]

/-- `GetAvgGyroValues` on a window that holds a history of at least `N` entries:
each component is the sum over the last `N` entries divided by `N`. -/
theorem GetAvgGyroValues_of_Holds {N M : ℕ} (d : WiiData F N M) (p : List (F × F × F))
    (h : Holds d.gyroReadings d.gyroReadingsIndex p) (hp : N ≤ p.length) :
    d.GetAvgGyroValues =
      (((p.drop (p.length - N)).map fun s => s.1).sum / (N : F),
        ((p.drop (p.length - N)).map fun s => s.2.1).sum / (N : F),
        ((p.drop (p.length - N)).map fun s => s.2.2).sum / (N : F)) := by
  have h0 := sum_of_Holds _ _ p h hp 0
  have h1 := sum_of_Holds _ _ p h hp 1
  have h2 := sum_of_Holds _ _ p h hp 2
  have c0 : (col 0 : F × F × F → F) = fun s => s.1 := by funext s; simp [col]
  have c1 : (col 1 : F × F × F → F) = fun s => s.2.1 := by funext s; simp [col]
  have c2 : (col 2 : F × F × F → F) = fun s => s.2.2 := by funext s; simp [col]
  rw [c0] at h0
  rw [c1] at h1
  rw [c2] at h2
  simp only [WiiData.GetAvgGyroValues, foldl_columns, zero_add, h0, h1, h2]

/-- The constructed gyroscope window holds a history of `N` zero triples. -/
theorem init_Holds {N M : ℕ} (hN : 0 < N) :
    Holds (WiiData.init : WiiData F N M).gyroReadings
      (WiiData.init : WiiData F N M).gyroReadingsIndex (List.replicate N (0, 0, 0)) := by
  refine ⟨hN, by simp [WiiData.init], ?_⟩
  intro i hi _
  simp only [List.length_replicate] at hi
  simp [List.getElem?_replicate, hi, rowAt, slotAt, hN, WiiData.init]

/-- From the constructed state every run of `UpdateGyro` calls succeeds, and the
average is taken over the last `N` entries of `N` zero triples followed by the
triples recorded. -/
theorem GetAvgGyroValues_after_init {N M : ℕ} (hN : 0 < N) (l : List (F × F × F)) :
    ∃ d, UpdateGyro_seq (WiiData.init : WiiData F N M) l = some d ∧
      d.GetAvgGyroValues =
        ((((List.replicate N ((0, 0, 0) : F × F × F) ++ l).drop l.length).map fun s => s.1).sum
            / (N : F),
          (((List.replicate N ((0, 0, 0) : F × F × F) ++ l).drop l.length).map fun s => s.2.1).sum
            / (N : F),
          (((List.replicate N ((0, 0, 0) : F × F × F) ++ l).drop l.length).map fun s => s.2.2).sum
            / (N : F)) := by
  obtain ⟨d, hd, hold⟩ := UpdateGyro_seq_Holds l _ _ (init_Holds (F := F) (M := M) hN)
  refine ⟨d, hd, ?_⟩
  rw [GetAvgGyroValues_of_Holds d _ hold (by simp)]
  simp

end window

/-! ## The gyroscope window from the constructed state -/

/-- C1: after `m ≥ 8` calls of `UpdateGyro` on a constructed `WiiData` the run
succeeds, each of the last 8 triples recorded sits in the slot of its position
modulo 8, and `GetAvgGyroValues` returns, per component, the sum of the last 8
recorded values divided by 8.  With the window size set to 3, recording
`(1,0,0), (2,0,0), (3,0,0)` gives average x = 2, and recording `(4,0,0)` after
them gives average x = 3. -/
theorem C1_gyro_average_last_eight {F : Type} [Field F] [CharZero F]
    (l : List (F × F × F)) (h : 8 ≤ l.length) :
    (∃ d, UpdateGyro_seq (WiiData.init : WiiData F 8 8) l = some d ∧
      (∀ i, l.length - 8 ≤ i → i < l.length → l[i]? = some (rowAt d.gyroReadings i)) ∧
      d.GetAvgGyroValues =
        (((l.drop (l.length - 8)).map fun s => s.1).sum / 8,
          ((l.drop (l.length - 8)).map fun s => s.2.1).sum / 8,
          ((l.drop (l.length - 8)).map fun s => s.2.2).sum / 8)) ∧
    (∃ d, UpdateGyro_seq (WiiData.init : WiiData F 3 3) [(1, 0, 0), (2, 0, 0), (3, 0, 0)] = some d ∧
      d.GetAvgGyroValues = (2, 0, 0)) ∧
    (∃ d, UpdateGyro_seq (WiiData.init : WiiData F 3 3)
        [(1, 0, 0), (2, 0, 0), (3, 0, 0), (4, 0, 0)] = some d ∧
      d.GetAvgGyroValues = (3, 0, 0)) := by
  refine ⟨?_, ?_, ?_⟩
  · obtain ⟨d, hd, hold⟩ :=
      UpdateGyro_seq_Holds l _ _ (init_Holds (F := F) (N := 8) (M := 8) (by norm_num))
    refine ⟨d, hd, ?_, ?_⟩
    · intro i h1 h2
      have h3 := hold.2.2 (8 + i) (by simp; omega) (by simp; omega)
      rw [List.getElem?_append_right (by simp)] at h3
      simp only [List.length_replicate, Nat.add_sub_cancel_left] at h3
      rw [h3]
      simp [rowAt, slotAt]
    · rw [GetAvgGyroValues_of_Holds d _ hold (by simp)]
      have hdrop : List.drop ((List.replicate 8 ((0, 0, 0) : F × F × F) ++ l).length - 8)
          (List.replicate 8 ((0, 0, 0) : F × F × F) ++ l) = l.drop (l.length - 8) := by
        rw [List.drop_append_eq_append_drop]
        simp
        omega
      rw [hdrop]
      simp
  · obtain ⟨d, hd, havg⟩ := GetAvgGyroValues_after_init (F := F) (N := 3) (M := 3) (by norm_num)
      [(1, 0, 0), (2, 0, 0), (3, 0, 0)]
    refine ⟨d, hd, ?_⟩
    rw [havg]
    simp
    norm_num
  · obtain ⟨d, hd, havg⟩ := GetAvgGyroValues_after_init (F := F) (N := 3) (M := 3) (by norm_num)
      [(1, 0, 0), (2, 0, 0), (3, 0, 0), (4, 0, 0)]
    refine ⟨d, hd, ?_⟩
    rw [havg]
    simp
    norm_num

/-- C2: after `k < 8` calls of `UpdateGyro` on a constructed `WiiData` the run
succeeds, the slots from `k` on are still zero, and `GetAvgGyroValues` returns,
per component, the sum of the `k` recorded values divided by 8. -/
theorem C2_gyro_average_startup {F : Type} [Field F]
    (l : List (F × F × F)) (h : l.length < 8) :
    ∃ d, UpdateGyro_seq (WiiData.init : WiiData F 8 8) l = some d ∧
      (∀ (j : Fin 8) (c : Fin 3), l.length ≤ (j : ℕ) → d.gyroReadings j c = 0) ∧
      d.GetAvgGyroValues =
        ((l.map fun s => s.1).sum / 8, (l.map fun s => s.2.1).sum / 8,
          (l.map fun s => s.2.2).sum / 8) := by
  obtain ⟨d, hd, hold⟩ :=
    UpdateGyro_seq_Holds l _ _ (init_Holds (F := F) (N := 8) (M := 8) (by norm_num))
  refine ⟨d, hd, ?_, ?_⟩
  · intro j c hj
    have h3 := hold.2.2 (j : ℕ) (by simp; omega) (by simp; omega)
    rw [List.getElem?_append_left (by simp), List.getElem?_replicate] at h3
    simp only [j.isLt, if_true, Option.some.injEq] at h3
    have h4 : col c (rowAt d.gyroReadings (j : ℕ)) = 0 := by
      rw [← h3]; simp [col]
    rwa [col_rowAt, slotAt_coe] at h4
  · rw [GetAvgGyroValues_of_Holds d _ hold (by simp)]
    have hdrop : List.drop ((List.replicate 8 ((0, 0, 0) : F × F × F) ++ l).length - 8)
        (List.replicate 8 ((0, 0, 0) : F × F × F) ++ l) =
          List.replicate (8 - l.length) ((0, 0, 0) : F × F × F) ++ l := by
      rw [List.drop_append_eq_append_drop]
      simp only [List.length_append, List.length_replicate, Nat.add_sub_cancel_left,
        List.drop_replicate]
      rw [Nat.sub_eq_zero_of_le (by omega : l.length ≤ 8), List.drop_zero]
    rw [hdrop]
    simp

/-! ## Quaternions -/

section quaternion

variable {F : Type} [Field F]

theorem quat.mul_def (p q : quat F) :
    p * q =
      { w := p.w * q.w - p.x * q.x - p.y * q.y - p.z * q.z
        x := p.w * q.x + p.x * q.w + p.y * q.z - p.z * q.y
        y := p.w * q.y + p.y * q.w + p.z * q.x - p.x * q.z
        z := p.w * q.z + p.z * q.w + p.x * q.y - p.y * q.x } :=
  rfl

/-- The Hamilton product is associative. -/
theorem quat.mul_assoc (p q r : quat F) : p * q * r = p * (q * r) := by
  ext <;> simp only [quat.mul_def] <;> ring

/-- The quaternion `(1, 0, 0, 0)` is a right unit. -/
theorem quat.mul_one (p : quat F) : p * (⟨1, 0, 0, 0⟩ : quat F) = p := by
  ext <;> simp [quat.mul_def]

theorem scaleRotation_eq (r delta_t : F) :
    scaleRotation r delta_t = r * ROTATION_SPEED * delta_t := by
  simp only [scaleRotation, ROTATION_SPEED]; ring

/-- The orientation after `UpdateOrientation`, with the macro read as a value. -/
theorem UpdateOrientation_quaternion [Libm F] (o : PlacedObject F) (yaw roll pitch delta_t : F) :
    (o.UpdateOrientation yaw roll pitch delta_t).quaternion =
      o.quaternion * quat.ofEuler ⟨yaw * ROTATION_SPEED * delta_t,
        roll * ROTATION_SPEED * delta_t, pitch * ROTATION_SPEED * delta_t⟩ := by
  simp only [PlacedObject.UpdateOrientation, scaleRotation_eq]

theorem scaleMovement_eq (v delta_t : F) :
    scaleMovement v delta_t = v * MOVEMENT_SPEED * delta_t := by
  simp only [scaleMovement, MOVEMENT_SPEED]; ring

/-- On the reals the Euler constructor with only the first angle non-zero is
`(cos (a/2), sin (a/2), 0, 0)`. -/
theorem ofEuler_first (a : ℝ) :
    quat.ofEuler (⟨a, 0, 0⟩ : vec3 ℝ) = ⟨Real.cos (a / 2), Real.sin (a / 2), 0, 0⟩ := by
  ext <;> simp [quat.ofEuler, Libm.cos, Libm.sin, div_eq_mul_inv]

/-- Two rotations built from the first Euler angle alone compose by adding the
angles. -/
theorem ofEuler_first_mul (a b : ℝ) :
    quat.ofEuler (⟨a, 0, 0⟩ : vec3 ℝ) * quat.ofEuler ⟨b, 0, 0⟩ = quat.ofEuler ⟨a + b, 0, 0⟩ := by
  have h : (a + b) / 2 = a / 2 + b / 2 := by ring
  rw [ofEuler_first, ofEuler_first, ofEuler_first, h, Real.cos_add, Real.sin_add]
  ext
  all_goals simp only [quat.mul_def]
  all_goals ring

/-- On the reals the Euler constructor at zero angles is `(1, 0, 0, 0)`. -/
theorem ofEuler_zero : quat.ofEuler (⟨0, 0, 0⟩ : vec3 ℝ) = ⟨1, 0, 0, 0⟩ := by
  rw [ofEuler_first]; simp

/-- On the reals the Euler constructor with only the third angle non-zero is
`(cos (a/2), 0, 0, sin (a/2))`. -/
theorem ofEuler_third (a : ℝ) :
    quat.ofEuler (⟨0, 0, a⟩ : vec3 ℝ) = ⟨Real.cos (a / 2), 0, 0, Real.sin (a / 2)⟩ := by
  ext <;> simp [quat.ofEuler, Libm.cos, Libm.sin, div_eq_mul_inv]

end quaternion

/-! ## The pose operations -/

/-- C3: `UpdateOrientation` sets the orientation to the old orientation times, on
the right, the Euler quaternion of `(yaw*g*delta_t, roll*g*delta_t,
pitch*g*delta_t)` with `g = ROTATION_SPEED`; position, scale and name stay. -/
theorem C3_UpdateOrientation_right_product {F : Type} [Field F] [Libm F]
    (o : PlacedObject F) (yaw roll pitch delta_t : F) :
    (o.UpdateOrientation yaw roll pitch delta_t).quaternion =
        o.quaternion * quat.ofEuler ⟨yaw * ROTATION_SPEED * delta_t,
          roll * ROTATION_SPEED * delta_t, pitch * ROTATION_SPEED * delta_t⟩ ∧
      (o.UpdateOrientation yaw roll pitch delta_t).positionX = o.positionX ∧
      (o.UpdateOrientation yaw roll pitch delta_t).positionY = o.positionY ∧
      (o.UpdateOrientation yaw roll pitch delta_t).positionZ = o.positionZ ∧
      (o.UpdateOrientation yaw roll pitch delta_t).scaleX = o.scaleX ∧
      (o.UpdateOrientation yaw roll pitch delta_t).scaleY = o.scaleY ∧
      (o.UpdateOrientation yaw roll pitch delta_t).scaleZ = o.scaleZ ∧
      (o.UpdateOrientation yaw roll pitch delta_t).obj_name = o.obj_name := by
  exact ⟨UpdateOrientation_quaternion o yaw roll pitch delta_t, rfl, rfl, rfl, rfl, rfl, rfl, rfl⟩

/-- C4: there are an orientation `Q` and rates whose incremental rotation `R` has
an axis not parallel to the axis of `Q` (their cross product is not zero), such
that `UpdateOrientation` gives `Q * R`, which differs from `R * Q`. -/
theorem C4_composition_order_observable :
    ∃ (o : PlacedObject ℝ) (yaw roll pitch delta_t : ℝ) (R : quat ℝ),
      R = quat.ofEuler ⟨yaw * ROTATION_SPEED * delta_t, roll * ROTATION_SPEED * delta_t,
        pitch * ROTATION_SPEED * delta_t⟩ ∧
      (o.quaternion.y * R.z - o.quaternion.z * R.y, o.quaternion.z * R.x - o.quaternion.x * R.z,
        o.quaternion.x * R.y - o.quaternion.y * R.x) ≠ (0, 0, 0) ∧
      (o.UpdateOrientation yaw roll pitch delta_t).quaternion = o.quaternion * R ∧
      (o.UpdateOrientation yaw roll pitch delta_t).quaternion ≠ R * o.quaternion := by
  have hR : quat.ofEuler (⟨Real.pi * ROTATION_SPEED * (3 / 50), 0 * ROTATION_SPEED * (3 / 50),
      0 * ROTATION_SPEED * (3 / 50)⟩ : vec3 ℝ) = ⟨0, 1, 0, 0⟩ := by
    have h : Real.pi * ROTATION_SPEED * (3 / 50) = Real.pi := by
      simp only [ROTATION_SPEED]; ring
    rw [h, zero_mul, zero_mul, ofEuler_first]
    simp
  have hQ : (placed_wiimote_init : PlacedObject ℝ).quaternion =
      ⟨Real.sqrt 2 / 2, 0, 0, Real.sqrt 2 / 2⟩ := by
    have h : (M_PI_2 : ℝ) / 2 = Real.pi / 4 := by
      simp only [M_PI_2, Libm.M_PI]; ring
    simp only [placed_wiimote_init]
    rw [ofEuler_third, h, Real.cos_pi_div_four, Real.sin_pi_div_four]
  have hs : Real.sqrt 2 / 2 ≠ 0 := by positivity
  refine ⟨placed_wiimote_init, Real.pi, 0, 0, 3 / 50, _, rfl, ?_, ?_, ?_⟩
  · rw [hR, hQ]
    simp
  · exact (UpdateOrientation_quaternion _ _ _ _ _)
  · rw [hR]
    simp only [PlacedObject.UpdateOrientation, scaleRotation_eq, hR, hQ]
    intro h
    have hy := congrArg quat.y h
    simp only [quat.mul_def] at hy
    norm_num at hy
    exact hs (by linarith)

/-- C5: with `delta_t = 0` the incremental rotation of `UpdateOrientation` is the
identity quaternion `(1, 0, 0, 0)` and the orientation is unchanged, and
`UpdatePosition` leaves the three position components unchanged. -/
theorem C5_zero_elapsed_time (o : PlacedObject ℝ) (yaw roll pitch x y z : ℝ) :
    quat.ofEuler (⟨scaleRotation yaw 0, scaleRotation roll 0, scaleRotation pitch 0⟩ : vec3 ℝ) =
        ⟨1, 0, 0, 0⟩ ∧
      (o.UpdateOrientation yaw roll pitch 0).quaternion = o.quaternion ∧
      (o.UpdatePosition x y z 0).positionX = o.positionX ∧
      (o.UpdatePosition x y z 0).positionY = o.positionY ∧
      (o.UpdatePosition x y z 0).positionZ = o.positionZ := by
  have h : ∀ r : ℝ, scaleRotation r 0 = 0 := fun r => by simp [scaleRotation]
  have hm : ∀ r : ℝ, scaleMovement r 0 = 0 := fun r => by simp [scaleMovement]
  refine ⟨by rw [h, h, h, ofEuler_zero], ?_, ?_, ?_, ?_⟩
  · simp only [PlacedObject.UpdateOrientation, h, ofEuler_zero, quat.mul_one]
  · simp [PlacedObject.UpdatePosition, PlacedObject.SetPosition, hm]
  · simp [PlacedObject.UpdatePosition, PlacedObject.SetPosition, hm]
  · simp [PlacedObject.UpdatePosition, PlacedObject.SetPosition, hm]

/-- C6: `SetOrientation` and `SetPosition` overwrite.  From any two global states
(object and sensor history), `SetOrientation(a, b, c)` gives the orientation
`E(a, b, c)` and `SetPosition(x, y, z)` gives the position `(x, y, z)`;
`SetOrientation` keeps the position, `SetPosition` keeps the orientation, and
both keep the sensor history. -/
theorem C6_set_is_overwrite {F : Type} [Field F] [Libm F] (g1 g2 : Globals F)
    (a b c x y z : F) :
    (g1.SetOrientation a b c).placed_wiimote.quaternion = quat.ofEuler ⟨a, b, c⟩ ∧
      (g2.SetOrientation a b c).placed_wiimote.quaternion =
        (g1.SetOrientation a b c).placed_wiimote.quaternion ∧
      ((g1.SetPosition x y z).placed_wiimote.positionX,
        (g1.SetPosition x y z).placed_wiimote.positionY,
        (g1.SetPosition x y z).placed_wiimote.positionZ) = (x, y, z) ∧
      ((g2.SetPosition x y z).placed_wiimote.positionX,
        (g2.SetPosition x y z).placed_wiimote.positionY,
        (g2.SetPosition x y z).placed_wiimote.positionZ) = (x, y, z) ∧
      ((g1.SetOrientation a b c).placed_wiimote.positionX,
        (g1.SetOrientation a b c).placed_wiimote.positionY,
        (g1.SetOrientation a b c).placed_wiimote.positionZ) =
        (g1.placed_wiimote.positionX, g1.placed_wiimote.positionY,
          g1.placed_wiimote.positionZ) ∧
      (g1.SetPosition x y z).placed_wiimote.quaternion = g1.placed_wiimote.quaternion ∧
      (g1.SetOrientation a b c).g_Wii = g1.g_Wii ∧
      (g1.SetPosition x y z).g_Wii = g1.g_Wii :=
  ⟨rfl, rfl, rfl, rfl, rfl, rfl, rfl, rfl⟩

/-! ## The event handler -/

/-- `UpdateGyro` with the cursor inside the array returns a state. -/
theorem UpdateGyro_isSome {F : Type} {N M : ℕ} (d : WiiData F N M) (yaw roll pitch : F)
    (hc : 0 ≤ d.gyroReadingsIndex ∧ d.gyroReadingsIndex < (N : ℤ)) :
    ∃ d', d.UpdateGyro yaw roll pitch = some d' ∧
      d'.accelReadings = d.accelReadings ∧ d'.accelReadingsIndex = d.accelReadingsIndex ∧
      d'.connectedWiimotes = d.connectedWiimotes :=
  ⟨{ d with
      gyroReadings :=
        writeRow d.gyroReadings ⟨d.gyroReadingsIndex.toNat, by omega⟩ yaw roll pitch
      gyroReadingsIndex :=
        if d.gyroReadingsIndex + 1 = (N : ℤ) then 0 else d.gyroReadingsIndex + 1 },
    by rw [WiiData.UpdateGyro, dif_pos hc]; rfl, rfl, rfl, rfl⟩

/-- `UpdateAccel` with the cursor inside the array returns a state with the
gyroscope window untouched and the cursor still inside the array. -/
theorem UpdateAccel_isSome {F : Type} {N M : ℕ} (d : WiiData F N M) (x y z : F)
    (hc : 0 ≤ d.accelReadingsIndex ∧ d.accelReadingsIndex < (M : ℤ)) :
    ∃ d', d.UpdateAccel x y z = some d' ∧
      d'.gyroReadings = d.gyroReadings ∧ d'.gyroReadingsIndex = d.gyroReadingsIndex ∧
      (0 ≤ d'.accelReadingsIndex ∧ d'.accelReadingsIndex < (M : ℤ)) := by
  refine ⟨{ d with
      accelReadings :=
        writeRow d.accelReadings ⟨d.accelReadingsIndex.toNat, by omega⟩ x y z
      accelReadingsIndex :=
        if d.accelReadingsIndex + 1 = (M : ℤ) then 0 else d.accelReadingsIndex + 1 },
    by simp only [WiiData.UpdateAccel, WiiData.RemoveGravityAccel]; rw [dif_pos hc]; rfl,
    rfl, rfl, ?_⟩
  dsimp only
  split <;> omega

section handler

variable {F : Type} [Field F]

/-- The average of the gyroscope window reads the gyroscope slots only. -/
theorem GetAvgGyroValues_congr {N M : ℕ} (d d' : WiiData F N M)
    (h : d'.gyroReadings = d.gyroReadings) : d'.GetAvgGyroValues = d.GetAvgGyroValues := by
  simp only [WiiData.GetAvgGyroValues, h]

/-- One call of `HandleEvent` with both cursors inside their arrays: it returns,
the gyroscope window is the one `UpdateGyro` leaves, and the pose is the one
`UpdateOrientation` gives on the converted average. -/
theorem HandleEvent_step [Libm F] (g : Globals F) (wm : CWiimote F)
    (hg : 0 ≤ g.g_Wii.gyroReadingsIndex ∧ g.g_Wii.gyroReadingsIndex < 8)
    (ha : 0 ≤ g.g_Wii.accelReadingsIndex ∧ g.g_Wii.accelReadingsIndex < 8) :
    ∃ w g', g.g_Wii.UpdateGyro wm.GetRates.2.2 wm.GetRates.1 wm.GetRates.2.1 = some w ∧
      HandleEvent_gyro g.g_Wii wm = some (w, (w.GetAvgGyroValues.1 * Libm.M_PI / 180,
        -w.GetAvgGyroValues.2.1 * Libm.M_PI / 180, w.GetAvgGyroValues.2.2 * Libm.M_PI / 180)) ∧
      HandleEvent g wm = some g' ∧
      g'.g_Wii.gyroReadings = w.gyroReadings ∧
      g'.g_Wii.gyroReadingsIndex = w.gyroReadingsIndex ∧
      (0 ≤ g'.g_Wii.accelReadingsIndex ∧ g'.g_Wii.accelReadingsIndex < 8) ∧
      g'.previous_time = g.previous_time ∧ g'.current_time = g.current_time ∧
      g'.placed_wiimote = g.placed_wiimote.UpdateOrientation
        (w.GetAvgGyroValues.1 * Libm.M_PI / 180) (-w.GetAvgGyroValues.2.1 * Libm.M_PI / 180)
        (w.GetAvgGyroValues.2.2 * Libm.M_PI / 180) (g.current_time - g.previous_time) := by
  obtain ⟨w, hw, _, hwa, _⟩ :=
    UpdateGyro_isSome g.g_Wii wm.GetRates.2.2 wm.GetRates.1 wm.GetRates.2.1 hg
  obtain ⟨w', hw', hg1, hg2, ha'⟩ :=
    UpdateAccel_isSome w wm.GetGravityVector.2.1 wm.GetGravityVector.2.2 wm.GetGravityVector.1
      (by rw [hwa]; exact ha)
  have hgy : HandleEvent_gyro g.g_Wii wm = some (w, (w.GetAvgGyroValues.1 * Libm.M_PI / 180,
      -w.GetAvgGyroValues.2.1 * Libm.M_PI / 180, w.GetAvgGyroValues.2.2 * Libm.M_PI / 180)) := by
    simp only [HandleEvent_gyro, hw]
  have hac : HandleEvent_accel w wm = some (w', w'.GetAvgAccelValues) := by
    simp only [HandleEvent_accel, hw']
  exact ⟨w, { g with
      g_Wii := w'
      placed_wiimote := g.placed_wiimote.UpdateOrientation
        (w.GetAvgGyroValues.1 * Libm.M_PI / 180) (-w.GetAvgGyroValues.2.1 * Libm.M_PI / 180)
        (w.GetAvgGyroValues.2.2 * Libm.M_PI / 180) (g.current_time - g.previous_time) },
    hw, hgy, by simp only [HandleEvent, hgy, hac], hg1, hg2, ha', rfl, rfl, rfl⟩

/-- An all-zero window with its cursor inside the array holds a history of zero
triples. -/
theorem zero_Holds {N : ℕ} (a : Fin N → Fin 3 → F) (hz : ∀ j c, a j c = 0) (idx : ℤ)
    (hc : 0 ≤ idx ∧ idx < (N : ℤ)) :
    Holds a idx (List.replicate (N + idx.toNat) (0, 0, 0)) := by
  have hN : 0 < N := by omega
  have hlt : idx.toNat < N := by omega
  refine ⟨hN, ?_, ?_⟩
  · rw [List.length_replicate, Nat.add_mod_left, Nat.mod_eq_of_lt hlt]
    omega
  · intro i hi _
    simp only [List.length_replicate] at hi
    simp [List.getElem?_replicate, hi, rowAt, slotAt, hN, hz]

/-- The average of a window that holds at least `N` zero triples followed by at
most `N` recorded triples: the sum of the recorded values divided by `N`. -/
theorem GetAvgGyroValues_zero_pad {N M : ℕ} (d : WiiData F N M) (n : ℕ) (l : List (F × F × F))
    (h : Holds d.gyroReadings d.gyroReadingsIndex (List.replicate n (0, 0, 0) ++ l))
    (hn : N ≤ n) (hl : l.length ≤ N) :
    d.GetAvgGyroValues =
      ((l.map fun s => s.1).sum / (N : F), (l.map fun s => s.2.1).sum / (N : F),
        (l.map fun s => s.2.2).sum / (N : F)) := by
  rw [GetAvgGyroValues_of_Holds d _ h (by simp; omega)]
  have hdrop : List.drop ((List.replicate n ((0, 0, 0) : F × F × F) ++ l).length - N)
      (List.replicate n ((0, 0, 0) : F × F × F) ++ l) =
        List.replicate (N - l.length) ((0, 0, 0) : F × F × F) ++ l := by
    rw [List.drop_append_eq_append_drop]
    simp only [List.length_append, List.length_replicate, List.drop_replicate]
    have e1 : n - (n + l.length - N) = N - l.length := by omega
    have e2 : n + l.length - N - n = 0 := by omega
    rw [e1, e2, List.drop_zero]
  rw [hdrop]
  simp

end handler

/-! ## The constant yaw-rate scenario -/

/-- The cursor of a window that holds a history is inside the array. -/
theorem Holds_cursor {F : Type} [Field F] {N : ℕ} (a : Fin N → Fin 3 → F) (idx : ℤ)
    (p : List (F × F × F)) (h : Holds a idx p) : 0 ≤ idx ∧ idx < (N : ℤ) := by
  obtain ⟨hN, hidx, _⟩ := h
  have := Nat.mod_lt p.length hN
  omega

/-- One event of the scenario: the window held `j < 8` samples of yaw rate 90
after zeros and the orientation was `q0` turned by the angle summed so far; after
the event the window holds `j + 1` samples, the smoothed yaw is `90 (j+1) / 8`
and the angle has grown by the next scaled increment. -/
theorem ramp_step (g : Globals ℝ) (e : CWiimote ℝ) (n j : ℕ) (q0 : quat ℝ)
    (hold : Holds g.g_Wii.gyroReadings g.g_Wii.gyroReadingsIndex
      (List.replicate n (0, 0, 0) ++ List.replicate j (90, 0, 0)))
    (hn : 8 ≤ n) (hj : j < 8)
    (ha : 0 ≤ g.g_Wii.accelReadingsIndex ∧ g.g_Wii.accelReadingsIndex < 8)
    (hdt : g.current_time - g.previous_time = 1 / 60) (he : e.GetRates = (0, 0, 90))
    (hq : g.placed_wiimote.quaternion = q0 * quat.ofEuler
      ⟨∑ i in Finset.range j, 90 * ((i : ℝ) + 1) / 8 * (Real.pi / 180) * ROTATION_SPEED * (1 / 60),
        0, 0⟩) :
    ∃ g', HandleEvent g e = some g' ∧
      Holds g'.g_Wii.gyroReadings g'.g_Wii.gyroReadingsIndex
        (List.replicate n (0, 0, 0) ++ List.replicate (j + 1) (90, 0, 0)) ∧
      (0 ≤ g'.g_Wii.accelReadingsIndex ∧ g'.g_Wii.accelReadingsIndex < 8) ∧
      g'.current_time - g'.previous_time = 1 / 60 ∧
      g'.placed_wiimote.quaternion = q0 * quat.ofEuler
        ⟨∑ i in Finset.range (j + 1),
          90 * ((i : ℝ) + 1) / 8 * (Real.pi / 180) * ROTATION_SPEED * (1 / 60), 0, 0⟩ := by
  obtain ⟨w, g', hw, _, hev, hg1, hg2, ha', hpt, hct, hp⟩ :=
    HandleEvent_step g e (Holds_cursor _ _ _ hold) ha
  obtain ⟨w2, hw2, hold2⟩ := UpdateGyro_Holds g.g_Wii _ hold e.GetRates.2.2 e.GetRates.1
    e.GetRates.2.1
  rw [hw] at hw2
  cases hw2
  rw [he, List.append_assoc, ← List.replicate_succ'] at hold2
  have havg := GetAvgGyroValues_zero_pad w n _ hold2 hn
    (by simp only [List.length_replicate]; show j + 1 ≤ 8; omega)
  simp only [List.map_replicate, List.sum_replicate, smul_eq_mul, nsmul_eq_mul, mul_zero,
    zero_div] at havg
  refine ⟨g', hev, by rw [hg1, hg2]; exact hold2, ha', by rw [hpt, hct]; exact hdt, ?_⟩
  rw [hp, UpdateOrientation_quaternion, hq, quat.mul_assoc, hdt, havg]
  have e0 : (-(0 : ℝ) * Libm.M_PI / 180 * ROTATION_SPEED * (1 / 60)) = 0 := by simp
  have e1 : ((0 : ℝ) * Libm.M_PI / 180 * ROTATION_SPEED * (1 / 60)) = 0 := by simp
  simp only [e0, e1]
  rw [ofEuler_first_mul, Finset.sum_range_succ]
  congr 3
  simp only [Libm.M_PI]
  push_cast
  ring

/-- A run of events of the scenario, by induction on the run. -/
theorem ramp_seq (evs : List (CWiimote ℝ)) (n : ℕ) (q0 : quat ℝ) (hn : 8 ≤ n) :
    ∀ (g : Globals ℝ) (j : ℕ),
      Holds g.g_Wii.gyroReadings g.g_Wii.gyroReadingsIndex
        (List.replicate n (0, 0, 0) ++ List.replicate j (90, 0, 0)) →
      j + evs.length ≤ 8 →
      (0 ≤ g.g_Wii.accelReadingsIndex ∧ g.g_Wii.accelReadingsIndex < 8) →
      g.current_time - g.previous_time = 1 / 60 →
      (∀ e ∈ evs, e.GetRates = (0, 0, 90)) →
      g.placed_wiimote.quaternion = q0 * quat.ofEuler
        ⟨∑ i in Finset.range j,
          90 * ((i : ℝ) + 1) / 8 * (Real.pi / 180) * ROTATION_SPEED * (1 / 60), 0, 0⟩ →
      ∃ g', HandleEvent_seq g evs = some g' ∧
        g'.g_Wii.GetAvgGyroValues = (90 * ((j + evs.length : ℕ) : ℝ) / 8, 0, 0) ∧
        g'.placed_wiimote.quaternion = q0 * quat.ofEuler
          ⟨∑ i in Finset.range (j + evs.length),
            90 * ((i : ℝ) + 1) / 8 * (Real.pi / 180) * ROTATION_SPEED * (1 / 60), 0, 0⟩ := by
  induction evs with
  | nil =>
    intro g j hold hj _ _ _ hq
    refine ⟨g, rfl, ?_, hq⟩
    rw [GetAvgGyroValues_zero_pad g.g_Wii n _ hold hn (by simpa using hj)]
    simp
    ring
  | cons e evs ih =>
    intro g j hold hj ha hdt he hq
    simp only [List.length_cons] at hj
    obtain ⟨g1, h1, hold1, ha1, hdt1, hq1⟩ :=
      ramp_step g e n j q0 hold hn (by omega) ha hdt (he e (List.mem_cons_self _ _)) hq
    obtain ⟨g2, h2, havg2, hq2⟩ := ih g1 (j + 1) hold1 (by omega) ha1 hdt1
      (fun e' he' => he e' (List.mem_cons_of_mem _ he')) hq1
    have hlen : j + 1 + evs.length = j + (e :: evs).length := by
      simp only [List.length_cons]; omega
    rw [hlen] at havg2 hq2
    exact ⟨g2, by simp only [HandleEvent_seq, h1, h2], havg2, hq2⟩

/-- C7: in `HandleEvent` the values passed to `UpdateOrientation` are
`avgYaw*π/180`, `-avgRoll*π/180`, `avgPitch*π/180`, with the average taken after
the new sample is recorded.  A positive smoothed yaw or pitch stays positive, a
positive smoothed roll gives a negative roll argument, and a raw roll rate of 10
recorded into an all-zero window gives the smoothed roll 10/8 and a negative
roll argument. -/
theorem C7_roll_sign_inverted (g : Globals ℝ) (wm : CWiimote ℝ)
    (hg : 0 ≤ g.g_Wii.gyroReadingsIndex ∧ g.g_Wii.gyroReadingsIndex < 8)
    (ha : 0 ≤ g.g_Wii.accelReadingsIndex ∧ g.g_Wii.accelReadingsIndex < 8) :
    ∃ w g', g.g_Wii.UpdateGyro wm.GetRates.2.2 wm.GetRates.1 wm.GetRates.2.1 = some w ∧
      HandleEvent_gyro g.g_Wii wm = some (w, (w.GetAvgGyroValues.1 * Real.pi / 180,
        -w.GetAvgGyroValues.2.1 * Real.pi / 180, w.GetAvgGyroValues.2.2 * Real.pi / 180)) ∧
      HandleEvent g wm = some g' ∧
      g'.placed_wiimote = g.placed_wiimote.UpdateOrientation
        (w.GetAvgGyroValues.1 * Real.pi / 180) (-w.GetAvgGyroValues.2.1 * Real.pi / 180)
        (w.GetAvgGyroValues.2.2 * Real.pi / 180) (g.current_time - g.previous_time) ∧
      (0 < w.GetAvgGyroValues.1 → 0 < w.GetAvgGyroValues.1 * Real.pi / 180) ∧
      (0 < w.GetAvgGyroValues.2.1 → -w.GetAvgGyroValues.2.1 * Real.pi / 180 < 0) ∧
      (0 < w.GetAvgGyroValues.2.2 → 0 < w.GetAvgGyroValues.2.2 * Real.pi / 180) ∧
      ((∀ j c, g.g_Wii.gyroReadings j c = 0) → wm.GetRates.1 = 10 →
        w.GetAvgGyroValues.2.1 = 10 / 8 ∧ -w.GetAvgGyroValues.2.1 * Real.pi / 180 < 0) := by
  obtain ⟨w, g', hw, hgy, hev, _, _, _, _, _, hp⟩ := HandleEvent_step g wm hg ha
  have hpi := Real.pi_pos
  have hneg : ∀ r : ℝ, 0 < r → -r * Real.pi / 180 < 0 := by
    intro r hr
    have : 0 < r * Real.pi := mul_pos hr hpi
    linarith
  have hpos : ∀ r : ℝ, 0 < r → 0 < r * Real.pi / 180 := by
    intro r hr
    have : 0 < r * Real.pi := mul_pos hr hpi
    linarith
  refine ⟨w, g', hw, hgy, hev, hp, hpos _, hneg _, hpos _, ?_⟩
  intro hz h10
  obtain ⟨w2, hw2, hold⟩ := UpdateGyro_Holds g.g_Wii _
    (zero_Holds g.g_Wii.gyroReadings hz g.g_Wii.gyroReadingsIndex hg)
    wm.GetRates.2.2 wm.GetRates.1 wm.GetRates.2.1
  rw [hw] at hw2
  cases hw2
  have havg := GetAvgGyroValues_zero_pad w _ _ hold (by omega) (by simp)
  have hroll : w.GetAvgGyroValues.2.1 = 10 / 8 := by
    rw [havg, h10]; simp
  exact ⟨hroll, hneg _ (by rw [hroll]; norm_num)⟩

/-- C8: from an all-zero gyroscope window, 8 events with yaw rate 90 (roll and
pitch 0) and elapsed time 1/60 all succeed; after the `k`-th the smoothed yaw is
`90 k / 8` and the orientation is the initial one times, on the right, the
single-angle rotation by the sum of the first `k` scaled increments; the sum of
all 8 is `5 π / 8`, so the final orientation is `Q0 * E(5π/8, 0, 0)`, with
`E(5π/8, 0, 0) = (cos (5π/16), sin (5π/16), 0, 0)`. -/
theorem C8_constant_yaw_scenario (g : Globals ℝ) (evs : List (CWiimote ℝ))
    (hz : ∀ j c, g.g_Wii.gyroReadings j c = 0)
    (hg : 0 ≤ g.g_Wii.gyroReadingsIndex ∧ g.g_Wii.gyroReadingsIndex < 8)
    (ha : 0 ≤ g.g_Wii.accelReadingsIndex ∧ g.g_Wii.accelReadingsIndex < 8)
    (hdt : g.current_time - g.previous_time = 1 / 60)
    (hlen : evs.length = 8) (hrate : ∀ e ∈ evs, e.GetRates = (0, 0, 90)) :
    (∀ k, k ≤ 8 → ∃ gk, HandleEvent_seq g (evs.take k) = some gk ∧
      gk.g_Wii.GetAvgGyroValues = (90 * (k : ℝ) / 8, 0, 0) ∧
      gk.placed_wiimote.quaternion = g.placed_wiimote.quaternion * quat.ofEuler
        ⟨∑ i in Finset.range k,
          90 * ((i : ℝ) + 1) / 8 * (Real.pi / 180) * ROTATION_SPEED * (1 / 60), 0, 0⟩) ∧
    (∃ g', HandleEvent_seq g evs = some g' ∧
      g'.placed_wiimote.quaternion =
        g.placed_wiimote.quaternion * quat.ofEuler ⟨5 * Real.pi / 8, 0, 0⟩ ∧
      g'.placed_wiimote.quaternion =
        g.placed_wiimote.quaternion *
          ⟨Real.cos (5 * Real.pi / 16), Real.sin (5 * Real.pi / 16), 0, 0⟩) ∧
    ∑ i in Finset.range 8,
      90 * ((i : ℝ) + 1) / 8 * (Real.pi / 180) * ROTATION_SPEED * (1 / 60) = 5 * Real.pi / 8 := by
  have hsum : ∑ i in Finset.range 8,
      90 * ((i : ℝ) + 1) / 8 * (Real.pi / 180) * ROTATION_SPEED * (1 / 60) = 5 * Real.pi / 8 := by
    simp only [Finset.sum_range_succ, Finset.sum_range_zero, ROTATION_SPEED]
    push_cast
    ring
  have hold := zero_Holds g.g_Wii.gyroReadings hz g.g_Wii.gyroReadingsIndex hg
  have hq0 : g.placed_wiimote.quaternion = g.placed_wiimote.quaternion * quat.ofEuler
      ⟨∑ i in Finset.range 0,
        90 * ((i : ℝ) + 1) / 8 * (Real.pi / 180) * ROTATION_SPEED * (1 / 60), 0, 0⟩ := by
    rw [Finset.sum_range_zero, ofEuler_zero, quat.mul_one]
  have hall : ∀ k, k ≤ 8 → ∃ gk, HandleEvent_seq g (evs.take k) = some gk ∧
      gk.g_Wii.GetAvgGyroValues = (90 * (k : ℝ) / 8, 0, 0) ∧
      gk.placed_wiimote.quaternion = g.placed_wiimote.quaternion * quat.ofEuler
        ⟨∑ i in Finset.range k,
          90 * ((i : ℝ) + 1) / 8 * (Real.pi / 180) * ROTATION_SPEED * (1 / 60), 0, 0⟩ := by
    intro k hk
    have hlk : (evs.take k).length = k := by rw [List.length_take]; omega
    obtain ⟨gk, h1, h2, h3⟩ := ramp_seq (evs.take k) (8 + g.g_Wii.gyroReadingsIndex.toNat)
      g.placed_wiimote.quaternion (by omega) g 0 (by simpa using hold) (by omega) ha hdt
      (fun e he => hrate e (List.mem_of_mem_take he)) hq0
    rw [hlk, Nat.zero_add] at h2 h3
    exact ⟨gk, h1, h2, h3⟩
  refine ⟨hall, ?_, hsum⟩
  obtain ⟨g', h1, _, h3⟩ := hall 8 (le_refl 8)
  have htake : evs.take 8 = evs := by rw [← hlen]; exact List.take_length evs
  rw [htake] at h1
  rw [hsum] at h3
  refine ⟨g', h1, h3, ?_⟩
  rw [h3, ofEuler_first]
  congr 3 <;> ring

/-- C9: the gain applied is `50/3`: the scaled angle of `UpdateOrientation` is
`r * (50/3) * delta_t`, which equals `r * 16 * delta_t` only when `r * delta_t`
is zero; and the same for the scaled step of `UpdatePosition`. -/
theorem C9_gain_is_fifty_thirds (o : PlacedObject ℝ)
    (r delta_t yaw roll pitch x y z : ℝ) :
    scaleRotation r delta_t = r * (50 / 3) * delta_t ∧
      (scaleRotation r delta_t = r * 16 * delta_t ↔ r * delta_t = 0) ∧
      (ROTATION_SPEED : ℝ) = 50 / 3 ∧
      (o.UpdateOrientation yaw roll pitch delta_t).quaternion =
        o.quaternion * quat.ofEuler ⟨yaw * (50 / 3) * delta_t, roll * (50 / 3) * delta_t,
          pitch * (50 / 3) * delta_t⟩ ∧
      scaleMovement r delta_t = r * (50 / 3) * delta_t ∧
      (scaleMovement r delta_t = r * 16 * delta_t ↔ r * delta_t = 0) ∧
      (MOVEMENT_SPEED : ℝ) = 50 / 3 ∧
      (o.UpdatePosition x y z delta_t).positionX = o.positionX + x * (50 / 3) * delta_t ∧
      (o.UpdatePosition x y z delta_t).positionY = o.positionY + y * (50 / 3) * delta_t ∧
      (o.UpdatePosition x y z delta_t).positionZ = o.positionZ + z * (50 / 3) * delta_t := by
  have hr : ∀ a b : ℝ, scaleRotation a b = a * (50 / 3) * b := by
    intro a b; simp only [scaleRotation]; ring
  have hm : ∀ a b : ℝ, scaleMovement a b = a * (50 / 3) * b := by
    intro a b; simp only [scaleMovement]; ring
  have h16 : r * (50 / 3) * delta_t = r * 16 * delta_t ↔ r * delta_t = 0 := by
    constructor
    · intro h; linarith
    · intro h
      have e1 : r * (50 / 3) * delta_t = 50 / 3 * (r * delta_t) := by ring
      have e2 : r * 16 * delta_t = 16 * (r * delta_t) := by ring
      rw [e1, e2, h]; ring
  refine ⟨hr _ _, by rw [hr]; exact h16, by simp only [ROTATION_SPEED]; norm_num, ?_, hm _ _,
    by rw [hm]; exact h16, by simp only [MOVEMENT_SPEED]; norm_num, ?_, ?_, ?_⟩
  · simp only [PlacedObject.UpdateOrientation, hr]
  · simp only [PlacedObject.UpdatePosition, PlacedObject.SetPosition, hm]
  · simp only [PlacedObject.UpdatePosition, PlacedObject.SetPosition, hm]
  · simp only [PlacedObject.UpdatePosition, PlacedObject.SetPosition, hm]

/-- C10: `UpdatePosition` sets the position to `(px + x*g*delta_t,
py + y*g*delta_t, pz + z*g*delta_t)` with `g = MOVEMENT_SPEED` and keeps the
orientation, the scale and the name. -/
theorem C10_UpdatePosition_adds_scaled_step {F : Type} [Field F]
    (o : PlacedObject F) (x y z delta_t : F) :
    (o.UpdatePosition x y z delta_t).positionX = o.positionX + x * MOVEMENT_SPEED * delta_t ∧
      (o.UpdatePosition x y z delta_t).positionY = o.positionY + y * MOVEMENT_SPEED * delta_t ∧
      (o.UpdatePosition x y z delta_t).positionZ = o.positionZ + z * MOVEMENT_SPEED * delta_t ∧
      (o.UpdatePosition x y z delta_t).quaternion = o.quaternion ∧
      (o.UpdatePosition x y z delta_t).scaleX = o.scaleX ∧
      (o.UpdatePosition x y z delta_t).scaleY = o.scaleY ∧
      (o.UpdatePosition x y z delta_t).scaleZ = o.scaleZ ∧
      (o.UpdatePosition x y z delta_t).obj_name = o.obj_name := by
  refine ⟨?_, ?_, ?_, rfl, rfl, rfl, rfl, rfl⟩
  · simp only [PlacedObject.UpdatePosition, PlacedObject.SetPosition, scaleMovement_eq]
  · simp only [PlacedObject.UpdatePosition, PlacedObject.SetPosition, scaleMovement_eq]
  · simp only [PlacedObject.UpdatePosition, PlacedObject.SetPosition, scaleMovement_eq]

/-! ## The record operations, slot by slot -/

/-- `UpdateGyro` with the cursor at slot `k`: the state returned, written out. -/
theorem UpdateGyro_eq {F : Type} {N M : ℕ} (d : WiiData F N M) (yaw roll pitch : F)
    (k : Fin N) (hk : ((k : ℕ) : ℤ) = d.gyroReadingsIndex) :
    d.UpdateGyro yaw roll pitch = some
      { d with
        gyroReadings := writeRow d.gyroReadings k yaw roll pitch
        gyroReadingsIndex :=
          if d.gyroReadingsIndex + 1 = (N : ℤ) then 0 else d.gyroReadingsIndex + 1 } := by
  have hlt := k.isLt
  have hc : 0 ≤ d.gyroReadingsIndex ∧ d.gyroReadingsIndex < (N : ℤ) := by omega
  have hfin : (⟨d.gyroReadingsIndex.toNat, by omega⟩ : Fin N) = k := Fin.ext (by simp; omega)
  rw [WiiData.UpdateGyro, dif_pos hc]
  simp only [hfin, writeRow]

/-- `UpdateAccel` with the cursor at slot `k`: the state returned, written out. -/
theorem UpdateAccel_eq {F : Type} {N M : ℕ} (d : WiiData F N M) (x y z : F)
    (k : Fin M) (hk : ((k : ℕ) : ℤ) = d.accelReadingsIndex) :
    d.UpdateAccel x y z = some
      { d with
        accelReadings := writeRow d.accelReadings k x y z
        accelReadingsIndex :=
          if d.accelReadingsIndex + 1 = (M : ℤ) then 0 else d.accelReadingsIndex + 1 } := by
  have hlt := k.isLt
  have hc : 0 ≤ d.accelReadingsIndex ∧ d.accelReadingsIndex < (M : ℤ) := by omega
  have hfin : (⟨d.accelReadingsIndex.toNat, by omega⟩ : Fin M) = k := Fin.ext (by simp; omega)
  simp only [WiiData.UpdateAccel, WiiData.RemoveGravityAccel]
  rw [dif_pos hc]
  simp only [hfin, writeRow]

/-- The three assignments put `(x, y, z)` in slot `k`. -/
theorem writeRow_same {F : Type} {N : ℕ} (a : Fin N → Fin 3 → F) (k : Fin N) (x y z : F) :
    writeRow a k x y z k 0 = x ∧ writeRow a k x y z k 1 = y ∧ writeRow a k x y z k 2 = z := by
  simp [writeRow, setEntry]

/-- The three assignments leave every other slot as it was. -/
theorem writeRow_other {F : Type} {N : ℕ} (a : Fin N → Fin 3 → F) (k j : Fin N) (x y z : F)
    (h : j ≠ k) : writeRow a k x y z j = a j := by
  funext c
  simp [writeRow, setEntry, h]

/-- `UpdateAccel` succeeds on a window that holds a history, and the new window
holds the history extended by the triple recorded. -/
theorem UpdateAccel_Holds {F : Type} [Field F] {N M : ℕ} (d : WiiData F N M)
    (p : List (F × F × F)) (h : Holds d.accelReadings d.accelReadingsIndex p) (x y z : F) :
    ∃ d', d.UpdateAccel x y z = some d' ∧
      Holds d'.accelReadings d'.accelReadingsIndex (p ++ [(x, y, z)]) := by
  obtain ⟨hM, hidx, hold⟩ := h
  have hr : p.length % M < M := Nat.mod_lt _ hM
  refine ⟨_, UpdateAccel_eq d x y z ⟨p.length % M, hr⟩ hidx.symm, ?_⟩
  have key := Holds_writeRow d.accelReadings p hM hold x y z hr
  rw [← cursor_step hM, ← hidx] at key
  exact key

/-- A run of `UpdateAccel` calls succeeds on a window that holds a history, and
the final window holds the history followed by the triples recorded. -/
theorem UpdateAccel_seq_Holds {F : Type} [Field F] {N M : ℕ} (l : List (F × F × F))
    (d : WiiData F N M) (p : List (F × F × F))
    (h : Holds d.accelReadings d.accelReadingsIndex p) :
    ∃ d', UpdateAccel_seq d l = some d' ∧
      Holds d'.accelReadings d'.accelReadingsIndex (p ++ l) := by
  induction l generalizing d p with
  | nil => exact ⟨d, rfl, by simpa using h⟩
  | cons s l ih =>
    obtain ⟨d1, h1, hold1⟩ := UpdateAccel_Holds d p h s.1 s.2.1 s.2.2
    obtain ⟨d2, h2, hold2⟩ := ih d1 _ hold1
    refine ⟨d2, by simp [UpdateAccel_seq, h1, h2], ?_⟩
    simpa using hold2

/-- `GetAvgAccelValues` on a window that holds a history of at least `M` entries:
each component is the sum over the last `M` entries divided by `M`. -/
theorem GetAvgAccelValues_of_Holds {F : Type} [Field F] {N M : ℕ} (d : WiiData F N M)
    (p : List (F × F × F)) (h : Holds d.accelReadings d.accelReadingsIndex p)
    (hp : M ≤ p.length) :
    d.GetAvgAccelValues =
      (((p.drop (p.length - M)).map fun s => s.1).sum / (M : F),
        ((p.drop (p.length - M)).map fun s => s.2.1).sum / (M : F),
        ((p.drop (p.length - M)).map fun s => s.2.2).sum / (M : F)) := by
  have h0 := sum_of_Holds _ _ p h hp 0
  have h1 := sum_of_Holds _ _ p h hp 1
  have h2 := sum_of_Holds _ _ p h hp 2
  have c0 : (col 0 : F × F × F → F) = fun s => s.1 := by funext s; simp [col]
  have c1 : (col 1 : F × F × F → F) = fun s => s.2.1 := by funext s; simp [col]
  have c2 : (col 2 : F × F × F → F) = fun s => s.2.2 := by funext s; simp [col]
  rw [c0] at h0
  rw [c1] at h1
  rw [c2] at h2
  simp only [WiiData.GetAvgAccelValues, foldl_columns, zero_add, h0, h1, h2]

/-- The average of the accelerometer window as a sum over the slots. -/
theorem GetAvgAccelValues_eq_sum {F : Type} [Field F] {N M : ℕ} (d : WiiData F N M) :
    d.GetAvgAccelValues =
      ((∑ i : Fin M, d.accelReadings i 0) / (M : F), (∑ i : Fin M, d.accelReadings i 1) / (M : F),
        (∑ i : Fin M, d.accelReadings i 2) / (M : F)) := by
  simp only [WiiData.GetAvgAccelValues, foldl_columns, zero_add, Fin.sum_univ_def]

/-- The average of the gyroscope window as a sum over the slots. -/
theorem GetAvgGyroValues_eq_sum {F : Type} [Field F] {N M : ℕ} (d : WiiData F N M) :
    d.GetAvgGyroValues =
      ((∑ i : Fin N, d.gyroReadings i 0) / (N : F), (∑ i : Fin N, d.gyroReadings i 1) / (N : F),
        (∑ i : Fin N, d.gyroReadings i 2) / (N : F)) := by
  simp only [WiiData.GetAvgGyroValues, foldl_columns, zero_add, Fin.sum_univ_def]

/-- The constructed accelerometer window holds a history of `M` zero triples. -/
theorem init_Holds_accel {F : Type} [Field F] {N M : ℕ} (hM : 0 < M) :
    Holds (WiiData.init : WiiData F N M).accelReadings
      (WiiData.init : WiiData F N M).accelReadingsIndex (List.replicate M (0, 0, 0)) := by
  refine ⟨hM, by simp [WiiData.init], ?_⟩
  intro i hi _
  simp only [List.length_replicate] at hi
  simp [List.getElem?_replicate, hi, rowAt, slotAt, hM, WiiData.init]

/-- C11: the accelerometer window.  `RemoveGravityAccel` returns its arguments;
`UpdateAccel` with the cursor at slot `k` stores exactly `(x, y, z)` there and
moves the cursor to `(cursor + 1) mod 8`; `GetAvgAccelValues` returns, per
component, the sum of the 8 slots divided by 8; and, as for the gyroscope, after
any run of `UpdateAccel` calls from the constructed state the average is taken
over the last 8 entries of 8 zero triples followed by the triples recorded. -/
theorem C11_accel_window_contract {F : Type} [Field F] (d : WiiData F 8 8) (x y z : F)
    (k : Fin 8) (hk : ((k : ℕ) : ℤ) = d.accelReadingsIndex) (l : List (F × F × F)) :
    d.RemoveGravityAccel x y z = (x, y, z) ∧
      (∃ d', d.UpdateAccel x y z = some d' ∧
        d'.accelReadings k 0 = x ∧ d'.accelReadings k 1 = y ∧ d'.accelReadings k 2 = z ∧
        d'.accelReadingsIndex = (d.accelReadingsIndex + 1) % 8) ∧
      d.GetAvgAccelValues =
        ((∑ i : Fin 8, d.accelReadings i 0) / 8, (∑ i : Fin 8, d.accelReadings i 1) / 8,
          (∑ i : Fin 8, d.accelReadings i 2) / 8) ∧
      (∃ e, UpdateAccel_seq (WiiData.init : WiiData F 8 8) l = some e ∧
        e.GetAvgAccelValues =
          ((((List.replicate 8 ((0, 0, 0) : F × F × F) ++ l).drop l.length).map
              fun s => s.1).sum / 8,
            (((List.replicate 8 ((0, 0, 0) : F × F × F) ++ l).drop l.length).map
              fun s => s.2.1).sum / 8,
            (((List.replicate 8 ((0, 0, 0) : F × F × F) ++ l).drop l.length).map
              fun s => s.2.2).sum / 8)) := by
  refine ⟨rfl, ?_, ?_, ?_⟩
  · refine ⟨_, UpdateAccel_eq d x y z k hk, (writeRow_same _ k x y z).1,
      (writeRow_same _ k x y z).2.1, (writeRow_same _ k x y z).2.2, ?_⟩
    have hlt := k.isLt
    dsimp only
    split <;> omega
  · rw [GetAvgAccelValues_eq_sum]
    simp
  · obtain ⟨e, he, hold⟩ :=
      UpdateAccel_seq_Holds l _ _ (init_Holds_accel (F := F) (N := 8) (M := 8) (by norm_num))
    refine ⟨e, he, ?_⟩
    rw [GetAvgAccelValues_of_Holds e _ hold (by simp)]
    simp

/-! ## The norm of the orientation -/

/-- On the reals the Euler constructor gives a quaternion of squared norm 1. -/
theorem dot_ofEuler (v : vec3 ℝ) : quat.dot (quat.ofEuler v) (quat.ofEuler v) = 1 := by
  have hx := Real.cos_sq_add_sin_sq (v.x * (1 / 2))
  have hy := Real.cos_sq_add_sin_sq (v.y * (1 / 2))
  have hz := Real.cos_sq_add_sin_sq (v.z * (1 / 2))
  have key : quat.dot (quat.ofEuler v) (quat.ofEuler v) =
      (Real.cos (v.x * (1 / 2)) ^ 2 + Real.sin (v.x * (1 / 2)) ^ 2) *
        (Real.cos (v.y * (1 / 2)) ^ 2 + Real.sin (v.y * (1 / 2)) ^ 2) *
        (Real.cos (v.z * (1 / 2)) ^ 2 + Real.sin (v.z * (1 / 2)) ^ 2) := by
    simp only [quat.dot, quat.ofEuler, Libm.cos, Libm.sin]
    ring
  rw [key, hx, hy, hz]
  norm_num

/-- The squared norm of a Hamilton product is the product of the squared norms. -/
theorem dot_mul {F : Type} [Field F] (p q : quat F) :
    quat.dot (p * q) (p * q) = quat.dot p p * quat.dot q q := by
  simp only [quat.dot, quat.mul_def]
  ring

/-- Each pose call keeps the squared norm of the orientation equal to 1. -/
theorem dot_call (o : PlacedObject ℝ) (c : PoseCall ℝ)
    (h : quat.dot o.quaternion o.quaternion = 1) :
    quat.dot (o.call c).quaternion (o.call c).quaternion = 1 := by
  cases c with
  | SetOrientation yaw roll pitch => exact dot_ofEuler _
  | UpdateOrientation yaw roll pitch delta_t =>
    simp only [PlacedObject.call, PlacedObject.UpdateOrientation]
    rw [dot_mul, h, dot_ofEuler, mul_one]
  | SetPosition x y z => exact h
  | UpdatePosition x y z delta_t => exact h

/-- A run of pose calls keeps the squared norm of the orientation equal to 1. -/
theorem dot_calls (l : List (PoseCall ℝ)) (o : PlacedObject ℝ)
    (h : quat.dot o.quaternion o.quaternion = 1) :
    quat.dot (o.calls l).quaternion (o.calls l).quaternion = 1 := by
  induction l generalizing o with
  | nil => exact h
  | cons c l ih => exact ih (o.call c) (dot_call o c h)

/-- C12: in exact real arithmetic the orientation has norm 1 (the square root of
its `dot` with itself): the initial orientation of `placed_wiimote` has,
`SetOrientation` gives norm 1 for every Euler triple, `UpdateOrientation` maps
norm 1 to norm 1, and so has every orientation reached from the initial object by
calls of `SetOrientation`, `UpdateOrientation`, `SetPosition`, `UpdatePosition`. -/
theorem C12_orientation_unit_norm :
    Real.sqrt (quat.dot (placed_wiimote_init : PlacedObject ℝ).quaternion
        (placed_wiimote_init : PlacedObject ℝ).quaternion) = 1 ∧
      (∀ (o : PlacedObject ℝ) (yaw roll pitch : ℝ),
        Real.sqrt (quat.dot (o.SetOrientation yaw roll pitch).quaternion
          (o.SetOrientation yaw roll pitch).quaternion) = 1) ∧
      (∀ (o : PlacedObject ℝ) (yaw roll pitch delta_t : ℝ),
        Real.sqrt (quat.dot o.quaternion o.quaternion) = 1 →
        Real.sqrt (quat.dot (o.UpdateOrientation yaw roll pitch delta_t).quaternion
          (o.UpdateOrientation yaw roll pitch delta_t).quaternion) = 1) ∧
      (∀ l : List (PoseCall ℝ),
        Real.sqrt (quat.dot ((placed_wiimote_init : PlacedObject ℝ).calls l).quaternion
          ((placed_wiimote_init : PlacedObject ℝ).calls l).quaternion) = 1) := by
  have h0 : quat.dot (placed_wiimote_init : PlacedObject ℝ).quaternion
      (placed_wiimote_init : PlacedObject ℝ).quaternion = 1 := dot_ofEuler _
  refine ⟨by rw [h0, Real.sqrt_one], ?_, ?_, ?_⟩
  · intro o yaw roll pitch
    rw [Real.sqrt_eq_one]
    exact dot_ofEuler _
  · intro o yaw roll pitch delta_t h
    rw [Real.sqrt_eq_one] at h ⊢
    exact dot_call o (PoseCall.UpdateOrientation yaw roll pitch delta_t) h
  · intro l
    rw [Real.sqrt_eq_one]
    exact dot_calls l _ h0

/-! ## The axes of the three angles -/

/-- On the reals the Euler constructor with only the second angle non-zero is
`(cos (a/2), 0, sin (a/2), 0)`. -/
theorem ofEuler_second (a : ℝ) :
    quat.ofEuler (⟨0, a, 0⟩ : vec3 ℝ) = ⟨Real.cos (a / 2), 0, Real.sin (a / 2), 0⟩ := by
  ext <;> simp [quat.ofEuler, Libm.cos, Libm.sin, div_eq_mul_inv]

/-- A zero rate scales to a zero angle. -/
theorem scaleRotation_zero {F : Type} [Field F] (delta_t : F) : scaleRotation 0 delta_t = 0 := by
  simp [scaleRotation]

/-- The rate `π` over the time `3/50` scales to the angle `π`. -/
theorem scaleRotation_pi : scaleRotation Real.pi (3 / 50) = Real.pi := by
  simp only [scaleRotation]; ring

/-- The claim C13 fails as stated: with yaw rate `π`, roll = pitch = 0 and
`delta_t = 3/50` the incremental quaternion is `(0, 1, 0, 0)`, whose x component
is not 0 (the rotation is about X, not Y); and with only the roll rate `π` it is
`(0, 0, 1, 0)`, whose y component is not 0 (the rotation is about Y, not X). -/
theorem C13_axes_counterexample :
    ¬ ((quat.ofEuler (⟨scaleRotation Real.pi (3 / 50), scaleRotation 0 (3 / 50),
          scaleRotation 0 (3 / 50)⟩ : vec3 ℝ)).x = 0 ∧
        (quat.ofEuler (⟨scaleRotation Real.pi (3 / 50), scaleRotation 0 (3 / 50),
          scaleRotation 0 (3 / 50)⟩ : vec3 ℝ)).z = 0) ∧
      ¬ ((quat.ofEuler (⟨scaleRotation 0 (3 / 50), scaleRotation Real.pi (3 / 50),
          scaleRotation 0 (3 / 50)⟩ : vec3 ℝ)).y = 0 ∧
        (quat.ofEuler (⟨scaleRotation 0 (3 / 50), scaleRotation Real.pi (3 / 50),
          scaleRotation 0 (3 / 50)⟩ : vec3 ℝ)).z = 0) := by
  rw [scaleRotation_zero, scaleRotation_pi, ofEuler_first, ofEuler_second]
  simp

/-- C13, amended: the scaled yaw, roll and pitch of `UpdateOrientation` are
rotation angles about the X, Y and Z axes respectively.  With `a` the scaled
angle `rate * ROTATION_SPEED * delta_t`: yaw alone gives the incremental
quaternion `(cos (a/2), sin (a/2), 0, 0)`, roll alone gives
`(cos (a/2), 0, sin (a/2), 0)`, pitch alone gives `(cos (a/2), 0, 0, sin (a/2))`,
and the new orientation is the old one times that quaternion. -/
theorem C13_axes_are_X_Y_Z (o : PlacedObject ℝ) (rate delta_t : ℝ) :
    (quat.ofEuler (⟨scaleRotation rate delta_t, scaleRotation 0 delta_t,
        scaleRotation 0 delta_t⟩ : vec3 ℝ) =
        ⟨Real.cos (rate * ROTATION_SPEED * delta_t / 2),
          Real.sin (rate * ROTATION_SPEED * delta_t / 2), 0, 0⟩ ∧
      (o.UpdateOrientation rate 0 0 delta_t).quaternion = o.quaternion *
        ⟨Real.cos (rate * ROTATION_SPEED * delta_t / 2),
          Real.sin (rate * ROTATION_SPEED * delta_t / 2), 0, 0⟩) ∧
    (quat.ofEuler (⟨scaleRotation 0 delta_t, scaleRotation rate delta_t,
        scaleRotation 0 delta_t⟩ : vec3 ℝ) =
        ⟨Real.cos (rate * ROTATION_SPEED * delta_t / 2), 0,
          Real.sin (rate * ROTATION_SPEED * delta_t / 2), 0⟩ ∧
      (o.UpdateOrientation 0 rate 0 delta_t).quaternion = o.quaternion *
        ⟨Real.cos (rate * ROTATION_SPEED * delta_t / 2), 0,
          Real.sin (rate * ROTATION_SPEED * delta_t / 2), 0⟩) ∧
    (quat.ofEuler (⟨scaleRotation 0 delta_t, scaleRotation 0 delta_t,
        scaleRotation rate delta_t⟩ : vec3 ℝ) =
        ⟨Real.cos (rate * ROTATION_SPEED * delta_t / 2), 0, 0,
          Real.sin (rate * ROTATION_SPEED * delta_t / 2)⟩ ∧
      (o.UpdateOrientation 0 0 rate delta_t).quaternion = o.quaternion *
        ⟨Real.cos (rate * ROTATION_SPEED * delta_t / 2), 0, 0,
          Real.sin (rate * ROTATION_SPEED * delta_t / 2)⟩) := by
  have h1 := ofEuler_first (rate * ROTATION_SPEED * delta_t)
  have h2 := ofEuler_second (rate * ROTATION_SPEED * delta_t)
  have h3 := ofEuler_third (rate * ROTATION_SPEED * delta_t)
  simp only [PlacedObject.UpdateOrientation, scaleRotation_eq, zero_mul, h1, h2, h3, and_self]

/-! ## The clocks of the controller thread -/

/-- `HandleEvent` does not write the two clocks. -/
theorem HandleEvent_clocks {F : Type} [Field F] [Libm F] (g g' : Globals F) (wm : CWiimote F)
    (h : HandleEvent g wm = some g') :
    g'.previous_time = g.previous_time ∧ g'.current_time = g.current_time := by
  unfold HandleEvent at h
  split at h
  · cases h
  · split at h
    · cases h
    · cases h
      exact ⟨rfl, rfl⟩

/-- The `switch` does not write the two clocks. -/
theorem switch_clocks {F : Type} [Field F] [Libm F] (s s' : ThreadState F) (ev : EventTypes)
    (wm : CWiimote F) (h : ControllerHandlerThread_switch s ev wm = some s') :
    s'.g.previous_time = s.g.previous_time ∧ s'.g.current_time = s.g.current_time := by
  cases ev
  · simp only [ControllerHandlerThread_switch] at h
    cases hh : HandleEvent s.g wm with
    | none => rw [hh] at h; cases h
    | some g' =>
      rw [hh] at h
      cases h
      exact HandleEvent_clocks s.g g' wm hh
  · cases h; exact ⟨rfl, rfl⟩
  · cases h; exact ⟨rfl, rfl⟩
  · cases h; exact ⟨rfl, rfl⟩

/-- During the `for` loop the clocks stay as they were on entry: at every call of
`HandleEvent` and in the state after the loop. -/
theorem for_clocks {F : Type} [Field F] [Libm F] (l : List (EventTypes × CWiimote F)) :
    ∀ s : ThreadState F,
      (∀ g ∈ (ControllerHandlerThread_for s l).1,
        g.previous_time = s.g.previous_time ∧ g.current_time = s.g.current_time) ∧
      (∀ s', (ControllerHandlerThread_for s l).2 = some s' →
        s'.g.previous_time = s.g.previous_time ∧ s'.g.current_time = s.g.current_time) := by
  induction l with
  | nil =>
    intro s
    refine ⟨fun g hg => by simp [ControllerHandlerThread_for] at hg, fun s' h => ?_⟩
    simp only [ControllerHandlerThread_for, Option.some.injEq] at h
    subst h
    exact ⟨rfl, rfl⟩
  | cons e rest ih =>
    intro s
    have hhead : ∀ g ∈ (if e.1 = EventTypes.EVENT_EVENT then [s.g] else []),
        g.previous_time = s.g.previous_time ∧ g.current_time = s.g.current_time := by
      intro g hg
      split at hg
      · simp only [List.mem_singleton] at hg
        subst hg
        exact ⟨rfl, rfl⟩
      · simp at hg
    cases hsw : ControllerHandlerThread_switch s e.1 e.2 with
    | none =>
      simp only [ControllerHandlerThread_for, hsw]
      exact ⟨hhead, fun s' h => by cases h⟩
    | some s1 =>
      simp only [ControllerHandlerThread_for, hsw]
      obtain ⟨hc1, hc2⟩ := switch_clocks s s1 e.1 e.2 hsw
      obtain ⟨ih1, ih2⟩ := ih s1
      refine ⟨fun g hg => ?_, fun s' h => ?_⟩
      · rcases List.mem_append.1 hg with hg | hg
        · exact hhead g hg
        · rw [← hc1, ← hc2]
          exact ih1 g hg
      · rw [← hc1, ← hc2]
        exact ih2 s' h

/-- In one iteration of the `while` loop every call of `HandleEvent` sees the
`previous_time` of entry and the clock reading of the iteration as
`current_time`; afterwards `previous_time` is that reading. -/
theorem body_clocks {F : Type} [Field F] [Libm F] (s : ThreadState F) (inp : Polled F) :
    (∀ g ∈ (ControllerHandlerThread_body s inp).1,
      g.previous_time = s.g.previous_time ∧ g.current_time = inp.glfwGetTime) ∧
    (∀ s', (ControllerHandlerThread_body s inp).2 = some s' →
      s'.g.previous_time = inp.glfwGetTime) := by
  simp only [ControllerHandlerThread_body]
  by_cases hp : inp.Poll ≠ 0
  · simp only [if_pos hp]
    by_cases hr : s.reload_wiimotes ≠ 0
    · simp only [if_pos hr]
      obtain ⟨h1, h2⟩ := for_clocks inp.wiimotes
        ({ g := { s.g with current_time := inp.glfwGetTime }, exit := s.exit,
           reload_wiimotes := 0 } : ThreadState F)
      refine ⟨h1, fun s' h => ?_⟩
      simp only [Option.map_eq_some'] at h
      obtain ⟨s1, hs1, rfl⟩ := h
      exact (h2 s1 hs1).2
    · simp only [if_neg hr]
      obtain ⟨h1, h2⟩ := for_clocks inp.wiimotes
        ({ s with g := { s.g with current_time := inp.glfwGetTime } } : ThreadState F)
      refine ⟨h1, fun s' h => ?_⟩
      simp only [Option.map_eq_some'] at h
      obtain ⟨s1, hs1, rfl⟩ := h
      exact (h2 s1 hs1).2
  · simp only [if_neg hp]
    refine ⟨fun g hg => by simp at hg, fun s' h => ?_⟩
    simp only [Option.map_some', Option.some.injEq] at h
    subst h
    split <;> rfl

/-- With a clock that never runs backwards, `previous_time ≤ current_time` at
every call of `HandleEvent` of the `while` loop. -/
theorem while_clocks (inputs : List (Polled ℝ)) :
    ∀ s : ThreadState ℝ,
      List.Chain (fun a b => a ≤ b) s.g.previous_time (inputs.map Polled.glfwGetTime) →
      ∀ g ∈ (ControllerHandlerThread_while s inputs).1, g.previous_time ≤ g.current_time := by
  induction inputs with
  | nil => intro s _ g hg; simp [ControllerHandlerThread_while] at hg
  | cons inp rest ih =>
    intro s hch g hg
    simp only [List.map_cons, List.chain_cons] at hch
    obtain ⟨h1, h2⟩ := body_clocks s inp
    simp only [ControllerHandlerThread_while] at hg
    split at hg
    · cases hb : (ControllerHandlerThread_body s inp).2 with
      | none =>
        simp only [hb] at hg
        obtain ⟨hp, hc⟩ := h1 g hg
        rw [hp, hc]
        exact hch.1
      | some s' =>
        simp only [hb] at hg
        rcases List.mem_append.1 hg with hg | hg
        · obtain ⟨hp, hc⟩ := h1 g hg
          rw [hp, hc]
          exact hch.1
        · refine ih s' ?_ g hg
          rw [h2 s' hb]
          exact hch.2
    · simp at hg

/-- The log of a `for` loop over a single sensor event is the state on entry. -/
theorem for_single_log {F : Type} [Field F] [Libm F] (s : ThreadState F) (wm : CWiimote F) :
    (ControllerHandlerThread_for s [(EventTypes.EVENT_EVENT, wm)]).1 = [s.g] := by
  simp only [ControllerHandlerThread_for]
  split <;> simp

/-- The log of a `while` loop run for one iteration is the log of that
iteration. -/
theorem while_single_log {F : Type} [Field F] [Libm F] (s : ThreadState F) (inp : Polled F)
    (h : s.exit = 0 ∧ s.g.g_Wii.connectedWiimotes > 0) :
    (ControllerHandlerThread_while s [inp]).1 = (ControllerHandlerThread_body s inp).1 := by
  simp only [ControllerHandlerThread_while, if_pos h]
  split <;> simp

/-- The claim C14 fails as stated: when the clock reads 0 after `previous_time`
was 1, `HandleEvent` is called once, with `current_time = 0 < previous_time = 1`
and the elapsed time `-1`. -/
theorem C14_clock_order_counterexample :
    (ControllerHandlerThread_while
        (⟨⟨1, 1, { (WiiData.init : WiiData ℝ 8 8) with connectedWiimotes := 1 },
          placed_wiimote_init⟩, 0, 0⟩ : ThreadState ℝ)
        [⟨0, 1, [(EventTypes.EVENT_EVENT, ⟨(0, 0, 0), (0, 0, 0)⟩)]⟩]).1.map
      (fun g => (g.previous_time, g.current_time, g.current_time - g.previous_time)) =
      [(1, 0, -1)] := by
  rw [while_single_log _ _ (by simp)]
  simp only [ControllerHandlerThread_body]
  simp [for_single_log]

/-- C14, amended: when the clock readings never decrease (the first is at least
the `previous_time` on entry), at every call of `HandleEvent` made by the loop of
`ControllerHandlerThread` `previous_time ≤ current_time` holds and the elapsed
time `current_time - previous_time` is at least 0. -/
theorem C14_clock_order_monotone_timer (s : ThreadState ℝ) (inputs : List (Polled ℝ))
    (hmono : List.Chain (fun a b => a ≤ b) s.g.previous_time
      (inputs.map Polled.glfwGetTime)) :
    ∀ g ∈ (ControllerHandlerThread_while s inputs).1,
      g.previous_time ≤ g.current_time ∧ 0 ≤ g.current_time - g.previous_time := by
  intro g hg
  have h := while_clocks inputs s hmono g hg
  exact ⟨h, by linarith⟩

/-! ## Recenter and loss of connectivity -/

/-- C15: a press of Space in `KeyCallback` sets the orientation to the one the
object was constructed with, `E(0, 0, π/2)`, and the position to `(0, 0, 0)`,
from every prior state; the scale, the name, the two sample windows with their
cursors and the clocks are unchanged. -/
theorem C15_recenter_restores_initial_pose (g : Globals ℝ) (scancode mod : ℤ) :
    (KeyCallback g GLFW_KEY_SPACE scancode GLFW_PRESS mod).placed_wiimote.quaternion =
        quat.ofEuler ⟨0, 0, Real.pi / 2⟩ ∧
      (KeyCallback g GLFW_KEY_SPACE scancode GLFW_PRESS mod).placed_wiimote.quaternion =
        (placed_wiimote_init : PlacedObject ℝ).quaternion ∧
      ((KeyCallback g GLFW_KEY_SPACE scancode GLFW_PRESS mod).placed_wiimote.positionX,
        (KeyCallback g GLFW_KEY_SPACE scancode GLFW_PRESS mod).placed_wiimote.positionY,
        (KeyCallback g GLFW_KEY_SPACE scancode GLFW_PRESS mod).placed_wiimote.positionZ) =
        (0, 0, 0) ∧
      ((KeyCallback g GLFW_KEY_SPACE scancode GLFW_PRESS mod).placed_wiimote.scaleX,
        (KeyCallback g GLFW_KEY_SPACE scancode GLFW_PRESS mod).placed_wiimote.scaleY,
        (KeyCallback g GLFW_KEY_SPACE scancode GLFW_PRESS mod).placed_wiimote.scaleZ) =
        (g.placed_wiimote.scaleX, g.placed_wiimote.scaleY, g.placed_wiimote.scaleZ) ∧
      (KeyCallback g GLFW_KEY_SPACE scancode GLFW_PRESS mod).placed_wiimote.obj_name =
        g.placed_wiimote.obj_name ∧
      (KeyCallback g GLFW_KEY_SPACE scancode GLFW_PRESS mod).g_Wii = g.g_Wii ∧
      (KeyCallback g GLFW_KEY_SPACE scancode GLFW_PRESS mod).previous_time = g.previous_time ∧
      (KeyCallback g GLFW_KEY_SPACE scancode GLFW_PRESS mod).current_time = g.current_time := by
  have h : KeyCallback g GLFW_KEY_SPACE scancode GLFW_PRESS mod =
      (g.SetOrientation 0 0 M_PI_2).SetPosition 0 0 0 := by
    simp [KeyCallback]
  rw [h]
  exact ⟨rfl, rfl, rfl, rfl, rfl, rfl, rfl, rfl⟩

/-- A `for` loop over controllers none of which has a sensor event calls
`HandleEvent` nowhere and leaves the globals as they were. -/
theorem for_no_sensor {F : Type} [Field F] [Libm F] (l : List (EventTypes × CWiimote F)) :
    ∀ s : ThreadState F, (∀ e ∈ l, e.1 ≠ EventTypes.EVENT_EVENT) →
      (ControllerHandlerThread_for s l).1 = [] ∧
      ∃ s', (ControllerHandlerThread_for s l).2 = some s' ∧ s'.g = s.g := by
  induction l with
  | nil => intro s _; exact ⟨rfl, s, rfl, rfl⟩
  | cons e rest ih =>
    intro s h
    have he : e.1 ≠ EventTypes.EVENT_EVENT := h e (List.mem_cons_self _ _)
    have hrest : ∀ e' ∈ rest, e'.1 ≠ EventTypes.EVENT_EVENT :=
      fun e' he' => h e' (List.mem_cons_of_mem _ he')
    have hsw : ∃ s1, ControllerHandlerThread_switch s e.1 e.2 = some s1 ∧ s1.g = s.g := by
      cases hk : e.1 with
      | EVENT_EVENT => exact absurd hk he
      | EVENT_DISCONNECT => exact ⟨_, rfl, rfl⟩
      | EVENT_UNEXPECTED_DISCONNECT => exact ⟨_, rfl, rfl⟩
      | EVENT_OTHER => exact ⟨_, rfl, rfl⟩
    obtain ⟨s1, hs1, hg1⟩ := hsw
    obtain ⟨ih1, s2, hs2, hg2⟩ := ih s1 hrest
    simp only [ControllerHandlerThread_for, hs1, if_neg he, ih1, List.append_nil]
    exact ⟨trivial, s2, hs2, by rw [hg2, hg1]⟩

/-- C16: in the `switch` of the controller loop a disconnect, an unexpected
disconnect and any other non-sensor event leave all globals (orientation,
position, both windows) as they were, and only set a local flag; a sensor event
runs `HandleEvent`, which can change them (recording yaw rate 1 in the
constructed state changes a gyroscope slot).  A whole iteration of the loop in
which no controller has a sensor event leaves the pose and the sensor history as
they were. -/
theorem C16_disconnect_freezes_pose {F : Type} [Field F] [Libm F]
    (s : ThreadState F) (wm : CWiimote F) :
    ControllerHandlerThread_switch s EventTypes.EVENT_DISCONNECT wm =
        some { s with exit := 1 } ∧
      ControllerHandlerThread_switch s EventTypes.EVENT_UNEXPECTED_DISCONNECT wm =
        some { s with reload_wiimotes := 1 } ∧
      ControllerHandlerThread_switch s EventTypes.EVENT_OTHER wm = some s ∧
      (∀ ev, ev ≠ EventTypes.EVENT_EVENT →
        ∃ s', ControllerHandlerThread_switch s ev wm = some s' ∧ s'.g = s.g) ∧
      ControllerHandlerThread_switch s EventTypes.EVENT_EVENT wm =
        (HandleEvent s.g wm).map (fun g => { s with g := g }) ∧
      (∀ inp : Polled F, (∀ e ∈ inp.wiimotes, e.1 ≠ EventTypes.EVENT_EVENT) →
        (ControllerHandlerThread_body s inp).1 = [] ∧
        ∃ s', (ControllerHandlerThread_body s inp).2 = some s' ∧
          s'.g.placed_wiimote = s.g.placed_wiimote ∧ s'.g.g_Wii = s.g.g_Wii) ∧
      (∃ s', ControllerHandlerThread_switch
          (⟨⟨0, 0, WiiData.init, placed_wiimote_init⟩, 0, 0⟩ : ThreadState F)
          EventTypes.EVENT_EVENT ⟨(0, 0, 1), (0, 0, 0)⟩ = some s' ∧
        s'.g.g_Wii.gyroReadings 0 0 ≠ (WiiData.init : WiiData F 8 8).gyroReadings 0 0) := by
  refine ⟨rfl, rfl, rfl, ?_, ?_, ?_, ?_⟩
  · intro ev hev
    cases ev with
    | EVENT_EVENT => exact absurd rfl hev
    | EVENT_DISCONNECT => exact ⟨_, rfl, rfl⟩
    | EVENT_UNEXPECTED_DISCONNECT => exact ⟨_, rfl, rfl⟩
    | EVENT_OTHER => exact ⟨_, rfl, rfl⟩
  · simp only [ControllerHandlerThread_switch]
    cases HandleEvent s.g wm <;> rfl
  · intro inp hall
    simp only [ControllerHandlerThread_body]
    by_cases hp : inp.Poll ≠ 0
    · simp only [if_pos hp]
      by_cases hr : s.reload_wiimotes ≠ 0
      · simp only [if_pos hr]
        obtain ⟨h1, s1, hs1, hg1⟩ := for_no_sensor inp.wiimotes
          ({ g := { s.g with current_time := inp.glfwGetTime }, exit := s.exit,
             reload_wiimotes := 0 } : ThreadState F) hall
        refine ⟨h1, _, by rw [hs1]; rfl, ?_, ?_⟩ <;> simp only [hg1]
      · simp only [if_neg hr]
        obtain ⟨h1, s1, hs1, hg1⟩ := for_no_sensor inp.wiimotes
          ({ s with g := { s.g with current_time := inp.glfwGetTime } } : ThreadState F) hall
        refine ⟨h1, _, by rw [hs1]; rfl, ?_, ?_⟩ <;> simp only [hg1]
    · simp only [if_neg hp]
      refine ⟨trivial, _, rfl, ?_, ?_⟩ <;> split <;> rfl
  · obtain ⟨w, g', hw, _, hev, hg1, _⟩ := HandleEvent_step
      (⟨0, 0, WiiData.init, placed_wiimote_init⟩ : Globals F) ⟨(0, 0, 1), (0, 0, 0)⟩
      (by simp [WiiData.init]) (by simp [WiiData.init])
    have hw2 := UpdateGyro_eq (WiiData.init : WiiData F 8 8) 1 0 0 0 (by simp [WiiData.init])
    rw [hw2] at hw
    cases hw
    refine ⟨{ g := g', exit := 0, reload_wiimotes := 0 }, ?_, ?_⟩
    · simp only [ControllerHandlerThread_switch, hev]
    · rw [hg1]
      simp [writeRow, setEntry, WiiData.init]

/-! ## What `HandleEvent` computes -/

/-- Overwriting one slot changes the sum of a column by the difference between
the new value and the old one. -/
theorem sum_replace {F : Type} [Field F] {N : ℕ} (f f' : Fin N → F) (k : Fin N) (v : F)
    (hk : f' k = v) (ho : ∀ i, i ≠ k → f' i = f i) :
    ∑ i, f' i = ∑ i, f i - f k + v := by
  have h : ∀ i, f' i = f i + if i = k then v - f k else 0 := by
    intro i
    by_cases hi : i = k
    · subst hi; simp [hk]
    · simp [hi, ho i hi]
  rw [Finset.sum_congr rfl (fun i _ => h i), Finset.sum_add_distrib, Finset.sum_ite_eq']
  simp only [Finset.mem_univ, if_true]
  ring

/-- The column sums of a window after one triple is stored in slot `k`. -/
theorem sum_writeRow {F : Type} [Field F] {N : ℕ} (a : Fin N → Fin 3 → F) (k : Fin N)
    (x y z : F) :
    ∑ i, writeRow a k x y z i 0 = ∑ i, a i 0 - a k 0 + x ∧
      ∑ i, writeRow a k x y z i 1 = ∑ i, a i 1 - a k 1 + y ∧
      ∑ i, writeRow a k x y z i 2 = ∑ i, a i 2 - a k 2 + z := by
  obtain ⟨h0, h1, h2⟩ := writeRow_same a k x y z
  refine ⟨sum_replace _ _ k x h0 ?_, sum_replace _ _ k y h1 ?_, sum_replace _ _ k z h2 ?_⟩ <;>
    intro i hi <;> rw [writeRow_other a k i x y z hi]

/-- C17: `HandleEvent` with the gyroscope cursor at slot `k` and the
accelerometer cursor inside its array.  It records the device rates as
`(yaw, roll, pitch)` in slot `k`; the average is taken on the window after that
write, so each component is (old sum - old slot `k` + new value) / 8; and the
orientation becomes `q * E(avgYaw*(π/180)*g*dt, -avgRoll*(π/180)*g*dt,
avgPitch*(π/180)*g*dt)` with `dt = current_time - previous_time` and
`g = ROTATION_SPEED`. -/
theorem C17_HandleEvent_orientation (g : Globals ℝ) (wm : CWiimote ℝ) (k : Fin 8)
    (hk : ((k : ℕ) : ℤ) = g.g_Wii.gyroReadingsIndex)
    (ha : 0 ≤ g.g_Wii.accelReadingsIndex ∧ g.g_Wii.accelReadingsIndex < 8) :
    ∃ w g', g.g_Wii.UpdateGyro wm.GetRates.2.2 wm.GetRates.1 wm.GetRates.2.1 = some w ∧
      (w.gyroReadings k 0, w.gyroReadings k 1, w.gyroReadings k 2) =
        (wm.GetRates.2.2, wm.GetRates.1, wm.GetRates.2.1) ∧
      w.GetAvgGyroValues =
        ((∑ i, g.g_Wii.gyroReadings i 0 - g.g_Wii.gyroReadings k 0 + wm.GetRates.2.2) / 8,
          (∑ i, g.g_Wii.gyroReadings i 1 - g.g_Wii.gyroReadings k 1 + wm.GetRates.1) / 8,
          (∑ i, g.g_Wii.gyroReadings i 2 - g.g_Wii.gyroReadings k 2 + wm.GetRates.2.1) / 8) ∧
      HandleEvent g wm = some g' ∧
      g'.g_Wii.gyroReadings = w.gyroReadings ∧
      g'.placed_wiimote.quaternion = g.placed_wiimote.quaternion * quat.ofEuler
        ⟨w.GetAvgGyroValues.1 * (Real.pi / 180) * ROTATION_SPEED *
            (g.current_time - g.previous_time),
          -w.GetAvgGyroValues.2.1 * (Real.pi / 180) * ROTATION_SPEED *
            (g.current_time - g.previous_time),
          w.GetAvgGyroValues.2.2 * (Real.pi / 180) * ROTATION_SPEED *
            (g.current_time - g.previous_time)⟩ := by
  have hlt := k.isLt
  obtain ⟨w, g', hw, _, hev, hg1, _, _, _, _, hp⟩ := HandleEvent_step g wm (by omega) ha
  have hw2 := UpdateGyro_eq g.g_Wii wm.GetRates.2.2 wm.GetRates.1 wm.GetRates.2.1 k hk
  rw [hw] at hw2
  cases hw2
  obtain ⟨s0, s1, s2⟩ := writeRow_same g.g_Wii.gyroReadings k wm.GetRates.2.2 wm.GetRates.1
    wm.GetRates.2.1
  obtain ⟨t0, t1, t2⟩ := sum_writeRow g.g_Wii.gyroReadings k wm.GetRates.2.2 wm.GetRates.1
    wm.GetRates.2.1
  refine ⟨_, g', hw, ?_, ?_, hev, hg1, ?_⟩
  · simp only [s0, s1, s2]
  · rw [GetAvgGyroValues_eq_sum]
    simp only [t0, t1, t2]
    norm_num
  · rw [hp, UpdateOrientation_quaternion]
    congr 3 <;> simp only [Libm.M_PI] <;> ring

/-- `HandleEvent` with the gyroscope cursor at slot `k` and the accelerometer
cursor at slot `m`, written out: `w` is the sensor history after `UpdateGyro`. -/
theorem HandleEvent_eq {F : Type} [Field F] [Libm F] (g : Globals F) (wm : CWiimote F)
    (k m : Fin 8) (hk : ((k : ℕ) : ℤ) = g.g_Wii.gyroReadingsIndex)
    (hm : ((m : ℕ) : ℤ) = g.g_Wii.accelReadingsIndex) :
    ∃ w, g.g_Wii.UpdateGyro wm.GetRates.2.2 wm.GetRates.1 wm.GetRates.2.1 = some w ∧
      HandleEvent g wm = some
        { g with
          g_Wii :=
            { w with
              accelReadings := writeRow g.g_Wii.accelReadings m wm.GetGravityVector.2.1
                wm.GetGravityVector.2.2 wm.GetGravityVector.1
              accelReadingsIndex :=
                if g.g_Wii.accelReadingsIndex + 1 = 8 then 0
                else g.g_Wii.accelReadingsIndex + 1 }
          placed_wiimote := g.placed_wiimote.UpdateOrientation
            (w.GetAvgGyroValues.1 * Libm.M_PI / 180) (-w.GetAvgGyroValues.2.1 * Libm.M_PI / 180)
            (w.GetAvgGyroValues.2.2 * Libm.M_PI / 180) (g.current_time - g.previous_time) } := by
  have hw := UpdateGyro_eq g.g_Wii wm.GetRates.2.2 wm.GetRates.1 wm.GetRates.2.1 k hk
  refine ⟨_, hw, ?_⟩
  have hacc := UpdateAccel_eq
    ({ g.g_Wii with
        gyroReadings := writeRow g.g_Wii.gyroReadings k wm.GetRates.2.2 wm.GetRates.1
          wm.GetRates.2.1
        gyroReadingsIndex :=
          if g.g_Wii.gyroReadingsIndex + 1 = ((8 : ℕ) : ℤ) then 0
          else g.g_Wii.gyroReadingsIndex + 1 } : WiiData F 8 8)
    wm.GetGravityVector.2.1 wm.GetGravityVector.2.2 wm.GetGravityVector.1 m hm
  simp only [HandleEvent, HandleEvent_gyro, HandleEvent_accel, hw, hacc]
  rfl

/-- C18: `HandleEvent` never moves the object, and the accelerometer reading does
not reach the pose: for two readings with the same rates (and any gravity
vectors) both calls succeed, the resulting pose is the same, its position is the
one before the call, and the two results agree on the gyroscope window and
cursor, the accelerometer cursor, the device count and the clocks; they differ
at most in the accelerometer window. -/
theorem C18_accel_never_reaches_pose {F : Type} [Field F] [Libm F] (g : Globals F)
    (wm1 wm2 : CWiimote F) (hr : wm1.GetRates = wm2.GetRates)
    (hg : 0 ≤ g.g_Wii.gyroReadingsIndex ∧ g.g_Wii.gyroReadingsIndex < 8)
    (ha : 0 ≤ g.g_Wii.accelReadingsIndex ∧ g.g_Wii.accelReadingsIndex < 8) :
    ∃ g1 g2, HandleEvent g wm1 = some g1 ∧ HandleEvent g wm2 = some g2 ∧
      (g1.placed_wiimote.positionX = g.placed_wiimote.positionX ∧
        g1.placed_wiimote.positionY = g.placed_wiimote.positionY ∧
        g1.placed_wiimote.positionZ = g.placed_wiimote.positionZ) ∧
      g1.placed_wiimote = g2.placed_wiimote ∧
      g1.g_Wii.gyroReadings = g2.g_Wii.gyroReadings ∧
      g1.g_Wii.gyroReadingsIndex = g2.g_Wii.gyroReadingsIndex ∧
      g1.g_Wii.accelReadingsIndex = g2.g_Wii.accelReadingsIndex ∧
      g1.g_Wii.connectedWiimotes = g2.g_Wii.connectedWiimotes ∧
      g1.previous_time = g2.previous_time ∧ g1.current_time = g2.current_time := by
  obtain ⟨w1, hw1, h1⟩ := HandleEvent_eq g wm1 ⟨g.g_Wii.gyroReadingsIndex.toNat, by omega⟩
    ⟨g.g_Wii.accelReadingsIndex.toNat, by omega⟩ (by simp; omega) (by simp; omega)
  obtain ⟨w2, hw2, h2⟩ := HandleEvent_eq g wm2 ⟨g.g_Wii.gyroReadingsIndex.toNat, by omega⟩
    ⟨g.g_Wii.accelReadingsIndex.toNat, by omega⟩ (by simp; omega) (by simp; omega)
  rw [hr, hw2] at hw1
  cases hw1
  exact ⟨_, _, h1, h2, ⟨rfl, rfl, rfl⟩, rfl, rfl, rfl, rfl, rfl, rfl, rfl⟩

/-! ## Cursors and frame of the record operations -/

/-- One record call on a state whose cursors are the numbers of gyroscope and
accelerometer writes modulo the window sizes: it succeeds and the cursors are
again those numbers, one of them advanced. -/
theorem call_cursors {F : Type} {N M : ℕ} (hN : 0 < N) (hM : 0 < M) (d : WiiData F N M)
    (c : RecordCall F) (a b : ℕ) (hg : d.gyroReadingsIndex = ((a % N : ℕ) : ℤ))
    (hacc : d.accelReadingsIndex = ((b % M : ℕ) : ℤ)) :
    ∃ d', d.call c = some d' ∧
      d'.gyroReadingsIndex = (((a + (if c.isGyro then 1 else 0)) % N : ℕ) : ℤ) ∧
      d'.accelReadingsIndex = (((b + (if c.isAccel then 1 else 0)) % M : ℕ) : ℤ) := by
  cases c with
  | UpdateGyro yaw roll pitch =>
    refine ⟨_, UpdateGyro_eq d yaw roll pitch ⟨a % N, Nat.mod_lt _ hN⟩ hg.symm, ?_, ?_⟩
    · simp only [RecordCall.isGyro, if_true]
      rw [← cursor_step hN, ← hg]
    · simpa [RecordCall.isAccel] using hacc
  | UpdateAccel x y z =>
    refine ⟨_, UpdateAccel_eq d x y z ⟨b % M, Nat.mod_lt _ hM⟩ hacc.symm, ?_, ?_⟩
    · simpa [RecordCall.isGyro] using hg
    · simp only [RecordCall.isAccel, if_true]
      rw [← cursor_step hM, ← hacc]

/-- Any interleaving of record calls on such a state succeeds, and the cursors
count the calls of each kind modulo the window sizes. -/
theorem calls_cursors {F : Type} {N M : ℕ} (hN : 0 < N) (hM : 0 < M) (l : List (RecordCall F)) :
    ∀ (d : WiiData F N M) (a b : ℕ), d.gyroReadingsIndex = ((a % N : ℕ) : ℤ) →
      d.accelReadingsIndex = ((b % M : ℕ) : ℤ) →
      ∃ d', WiiData.calls d l = some d' ∧
        d'.gyroReadingsIndex = (((a + l.countP RecordCall.isGyro) % N : ℕ) : ℤ) ∧
        d'.accelReadingsIndex = (((b + l.countP RecordCall.isAccel) % M : ℕ) : ℤ) := by
  induction l with
  | nil => intro d a b hg hacc; exact ⟨d, rfl, by simpa using hg, by simpa using hacc⟩
  | cons c l ih =>
    intro d a b hg hacc
    obtain ⟨d1, h1, hg1, ha1⟩ := call_cursors hN hM d c a b hg hacc
    obtain ⟨d2, h2, hg2, ha2⟩ := ih d1 _ _ hg1 ha1
    refine ⟨d2, by simp only [WiiData.calls, h1, h2], ?_, ?_⟩
    · rw [hg2, List.countP_cons]
      congr 2
      omega
    · rw [ha2, List.countP_cons]
      congr 2
      omega

/-- C19: the record operations are total and keep the cursors inside the arrays.
From the constructed state: after the `m` calls of `UpdateGyro` of a list the run
has succeeded and the gyroscope cursor is `m mod 8`; likewise for `UpdateAccel`;
any interleaving of the two succeeds, with each cursor the number of calls of
its kind modulo 8, hence in `[0, 8)`.  And on every state with both cursors in
`[0, 8)` each of the two operations succeeds and leaves both cursors in
`[0, 8)`. -/
theorem C19_cursors_stay_in_range {F : Type} [Field F]
    (lg la : List (F × F × F)) (l : List (RecordCall F)) :
    (∃ d, UpdateGyro_seq (WiiData.init : WiiData F 8 8) lg = some d ∧
      d.gyroReadingsIndex = ((lg.length % 8 : ℕ) : ℤ)) ∧
    (∃ d, UpdateAccel_seq (WiiData.init : WiiData F 8 8) la = some d ∧
      d.accelReadingsIndex = ((la.length % 8 : ℕ) : ℤ)) ∧
    (∃ d, WiiData.calls (WiiData.init : WiiData F 8 8) l = some d ∧
      d.gyroReadingsIndex = ((l.countP RecordCall.isGyro % 8 : ℕ) : ℤ) ∧
      d.accelReadingsIndex = ((l.countP RecordCall.isAccel % 8 : ℕ) : ℤ) ∧
      (0 ≤ d.gyroReadingsIndex ∧ d.gyroReadingsIndex < 8) ∧
      (0 ≤ d.accelReadingsIndex ∧ d.accelReadingsIndex < 8)) ∧
    (∀ (d : WiiData F 8 8) (c : RecordCall F),
      (0 ≤ d.gyroReadingsIndex ∧ d.gyroReadingsIndex < 8) →
      (0 ≤ d.accelReadingsIndex ∧ d.accelReadingsIndex < 8) →
      ∃ d', d.call c = some d' ∧
        (0 ≤ d'.gyroReadingsIndex ∧ d'.gyroReadingsIndex < 8) ∧
        (0 ≤ d'.accelReadingsIndex ∧ d'.accelReadingsIndex < 8)) := by
  refine ⟨?_, ?_, ?_, ?_⟩
  · obtain ⟨d, hd, hold⟩ :=
      UpdateGyro_seq_Holds lg _ _ (init_Holds (F := F) (N := 8) (M := 8) (by norm_num))
    refine ⟨d, hd, ?_⟩
    rw [hold.2.1, List.length_append, List.length_replicate, Nat.add_mod_left]
  · obtain ⟨d, hd, hold⟩ :=
      UpdateAccel_seq_Holds la _ _ (init_Holds_accel (F := F) (N := 8) (M := 8) (by norm_num))
    refine ⟨d, hd, ?_⟩
    rw [hold.2.1, List.length_append, List.length_replicate, Nat.add_mod_left]
  · obtain ⟨d, hd, hg, ha⟩ := calls_cursors (F := F) (N := 8) (M := 8) (by norm_num)
      (by norm_num) l WiiData.init 0 0 rfl rfl
    rw [Nat.zero_add] at hg ha
    refine ⟨d, hd, hg, ha, ?_, ?_⟩
    · rw [hg]; omega
    · rw [ha]; omega
  · intro d c hg ha
    obtain ⟨d', hd, hg', ha'⟩ := call_cursors (F := F) (N := 8) (M := 8) (by norm_num)
      (by norm_num) d c d.gyroReadingsIndex.toNat d.accelReadingsIndex.toNat
      (by omega) (by omega)
    refine ⟨d', hd, ?_, ?_⟩
    · rw [hg']; omega
    · rw [ha']; omega

/-- C20: frame of the record operations.  With the gyroscope cursor at slot `k`,
`UpdateGyro` succeeds and changes only slot `k` of the gyroscope window and the
gyroscope cursor: the other gyroscope slots, the accelerometer window and
cursor, the device count and the value of `GetAvgAccelValues` are unchanged.
Symmetrically, with the accelerometer cursor at slot `m`, for `UpdateAccel`. -/
theorem C20_record_frame {F : Type} [Field F] (d : WiiData F 8 8) (a b c : F)
    (k : Fin 8) (hk : ((k : ℕ) : ℤ) = d.gyroReadingsIndex)
    (m : Fin 8) (hm : ((m : ℕ) : ℤ) = d.accelReadingsIndex) :
    (∃ d', d.UpdateGyro a b c = some d' ∧
      (∀ j, j ≠ k → d'.gyroReadings j = d.gyroReadings j) ∧
      d'.accelReadings = d.accelReadings ∧
      d'.accelReadingsIndex = d.accelReadingsIndex ∧
      d'.connectedWiimotes = d.connectedWiimotes ∧
      d'.GetAvgAccelValues = d.GetAvgAccelValues) ∧
    (∃ d', d.UpdateAccel a b c = some d' ∧
      (∀ j, j ≠ m → d'.accelReadings j = d.accelReadings j) ∧
      d'.gyroReadings = d.gyroReadings ∧
      d'.gyroReadingsIndex = d.gyroReadingsIndex ∧
      d'.connectedWiimotes = d.connectedWiimotes ∧
      d'.GetAvgGyroValues = d.GetAvgGyroValues) :=
  ⟨⟨_, UpdateGyro_eq d a b c k hk, fun j hj => writeRow_other _ k j a b c hj, rfl, rfl, rfl,
      rfl⟩,
    ⟨_, UpdateAccel_eq d a b c m hm, fun j hj => writeRow_other _ m j a b c hj, rfl, rfl, rfl,
      rfl⟩⟩

/-! ## Flushing the window from any state -/

/-- Any window with its cursor inside the array holds a history: its own slots,
read round and round up to the cursor. -/
theorem any_Holds {F : Type} [Field F] {N : ℕ} (a : Fin N → Fin 3 → F) (idx : ℤ)
    (hc : 0 ≤ idx ∧ idx < (N : ℤ)) :
    Holds a idx ((List.range (N + idx.toNat)).map (rowAt a)) := by
  have hN : 0 < N := by omega
  have hlt : idx.toNat < N := by omega
  refine ⟨hN, ?_, ?_⟩
  · rw [List.length_map, List.length_range, Nat.add_mod_left, Nat.mod_eq_of_lt hlt]
    omega
  · intro i hi _
    simp only [List.length_map, List.length_range] at hi
    rw [List.getElem?_map, List.getElem?_range hi]
    rfl

/-- After `N` records on a window that holds a history, the average is over the
`N` triples recorded. -/
theorem GetAvgGyroValues_after_full {F : Type} [Field F] {N M : ℕ} (d' : WiiData F N M)
    (p l : List (F × F × F)) (hl : l.length = N)
    (h : Holds d'.gyroReadings d'.gyroReadingsIndex (p ++ l)) :
    d'.GetAvgGyroValues =
      ((l.map fun s => s.1).sum / (N : F), (l.map fun s => s.2.1).sum / (N : F),
        (l.map fun s => s.2.2).sum / (N : F)) := by
  rw [GetAvgGyroValues_of_Holds d' _ h (by simp; omega)]
  have hdrop : List.drop ((p ++ l).length - N) (p ++ l) = l := by
    rw [List.length_append, hl, Nat.add_sub_cancel, List.drop_left]
  rw [hdrop]

/-- C21: from every gyroscope window content and every cursor in `[0, 8)`, 8
calls of `UpdateGyro` succeed and `GetAvgGyroValues` then returns, per
component, the sum of the 8 recorded values divided by 8, whatever the earlier
content and cursor were; after 8 records of the same triple `c` the average is
`c`. -/
theorem C21_window_flushed_after_eight {F : Type} [Field F] [CharZero F]
    (d : WiiData F 8 8) (hc : 0 ≤ d.gyroReadingsIndex ∧ d.gyroReadingsIndex < 8)
    (l : List (F × F × F)) (hl : l.length = 8) (c : F × F × F) :
    (∃ d', UpdateGyro_seq d l = some d' ∧
      d'.GetAvgGyroValues =
        ((l.map fun s => s.1).sum / 8, (l.map fun s => s.2.1).sum / 8,
          (l.map fun s => s.2.2).sum / 8)) ∧
    (∃ d', UpdateGyro_seq d (List.replicate 8 c) = some d' ∧ d'.GetAvgGyroValues = c) := by
  have hold := any_Holds d.gyroReadings d.gyroReadingsIndex hc
  constructor
  · obtain ⟨d', hd, hold'⟩ := UpdateGyro_seq_Holds l d _ hold
    refine ⟨d', hd, ?_⟩
    rw [GetAvgGyroValues_after_full d' _ l hl hold']
    simp
  · obtain ⟨d', hd, hold'⟩ := UpdateGyro_seq_Holds (List.replicate 8 c) d _ hold
    refine ⟨d', hd, ?_⟩
    rw [GetAvgGyroValues_after_full d' _ _ (by simp) hold']
    simp only [List.map_replicate, List.sum_replicate, nsmul_eq_mul, Nat.cast_ofNat]
    have h8 : (8 : F) ≠ 0 := by norm_num
    ext
    · exact mul_div_cancel_left₀ _ h8
    · exact mul_div_cancel_left₀ _ h8
    · exact mul_div_cancel_left₀ _ h8

/-! ## Single-axis updates -/

/-- Two rotations built from the second Euler angle alone compose by adding the
angles. -/
theorem ofEuler_second_mul (a b : ℝ) :
    quat.ofEuler (⟨0, a, 0⟩ : vec3 ℝ) * quat.ofEuler ⟨0, b, 0⟩ = quat.ofEuler ⟨0, a + b, 0⟩ := by
  have h : (a + b) / 2 = a / 2 + b / 2 := by ring
  rw [ofEuler_second, ofEuler_second, ofEuler_second, h, Real.cos_add, Real.sin_add]
  ext
  all_goals simp only [quat.mul_def]
  all_goals ring

/-- Two rotations built from the third Euler angle alone compose by adding the
angles. -/
theorem ofEuler_third_mul (a b : ℝ) :
    quat.ofEuler (⟨0, 0, a⟩ : vec3 ℝ) * quat.ofEuler ⟨0, 0, b⟩ = quat.ofEuler ⟨0, 0, a + b⟩ := by
  have h : (a + b) / 2 = a / 2 + b / 2 := by ring
  rw [ofEuler_third, ofEuler_third, ofEuler_third, h, Real.cos_add, Real.sin_add]
  ext
  all_goals simp only [quat.mul_def]
  all_goals ring

/-- The orientation after two calls of `UpdateOrientation`. -/
theorem UpdateOrientation_twice (o : PlacedObject ℝ) (y1 r1 p1 t1 y2 r2 p2 t2 : ℝ) :
    ((o.UpdateOrientation y1 r1 p1 t1).UpdateOrientation y2 r2 p2 t2).quaternion =
      o.quaternion *
        (quat.ofEuler ⟨y1 * ROTATION_SPEED * t1, r1 * ROTATION_SPEED * t1,
            p1 * ROTATION_SPEED * t1⟩ *
          quat.ofEuler ⟨y2 * ROTATION_SPEED * t2, r2 * ROTATION_SPEED * t2,
            p2 * ROTATION_SPEED * t2⟩) := by
  rw [UpdateOrientation_quaternion, UpdateOrientation_quaternion, quat.mul_assoc]

/-- C22: on one axis the updates add up.  `UpdateOrientation(a, 0, 0, dt1)`
followed by `UpdateOrientation(b, 0, 0, dt2)` gives the old orientation times
the rotation with the angle `a*g*dt1 + b*g*dt2` on that axis, and
`UpdateOrientation(a, 0, 0, dt)` followed by `UpdateOrientation(-a, 0, 0, dt)`
gives back the old orientation; the same with only roll, and with only pitch,
non-zero (`g = ROTATION_SPEED`). -/
theorem C22_single_axis_updates_add (o : PlacedObject ℝ) (a b dt1 dt2 dt : ℝ) :
    (((o.UpdateOrientation a 0 0 dt1).UpdateOrientation b 0 0 dt2).quaternion =
        o.quaternion *
          quat.ofEuler ⟨a * ROTATION_SPEED * dt1 + b * ROTATION_SPEED * dt2, 0, 0⟩ ∧
      ((o.UpdateOrientation a 0 0 dt).UpdateOrientation (-a) 0 0 dt).quaternion =
        o.quaternion) ∧
    (((o.UpdateOrientation 0 a 0 dt1).UpdateOrientation 0 b 0 dt2).quaternion =
        o.quaternion *
          quat.ofEuler ⟨0, a * ROTATION_SPEED * dt1 + b * ROTATION_SPEED * dt2, 0⟩ ∧
      ((o.UpdateOrientation 0 a 0 dt).UpdateOrientation 0 (-a) 0 dt).quaternion =
        o.quaternion) ∧
    (((o.UpdateOrientation 0 0 a dt1).UpdateOrientation 0 0 b dt2).quaternion =
        o.quaternion *
          quat.ofEuler ⟨0, 0, a * ROTATION_SPEED * dt1 + b * ROTATION_SPEED * dt2⟩ ∧
      ((o.UpdateOrientation 0 0 a dt).UpdateOrientation 0 0 (-a) dt).quaternion =
        o.quaternion) := by
  have hz : a * ROTATION_SPEED * dt + -a * ROTATION_SPEED * dt = 0 := by ring
  simp only [UpdateOrientation_twice, zero_mul, ofEuler_first_mul, ofEuler_second_mul,
    ofEuler_third_mul, hz, ofEuler_zero, quat.mul_one, and_self]

/-! ## The average stays within the window -/

/-- The mean of 8 values lies between their minimum and their maximum. -/
theorem mean_between {F : Type} [LinearOrderedField F] (f : Fin 8 → F) :
    Finset.univ.inf' Finset.univ_nonempty f ≤ (∑ i, f i) / 8 ∧
      (∑ i, f i) / 8 ≤ Finset.univ.sup' Finset.univ_nonempty f := by
  have h8 : (0 : F) < 8 := by norm_num
  have hlo : ∑ _i : Fin 8, Finset.univ.inf' Finset.univ_nonempty f ≤ ∑ i, f i :=
    Finset.sum_le_sum fun i _ => Finset.inf'_le f (Finset.mem_univ i)
  have hhi : ∑ i, f i ≤ ∑ _i : Fin 8, Finset.univ.sup' Finset.univ_nonempty f :=
    Finset.sum_le_sum fun i _ => Finset.le_sup' f (Finset.mem_univ i)
  simp only [Finset.sum_const, Finset.card_univ, Fintype.card_fin, nsmul_eq_mul,
    Nat.cast_ofNat] at hlo hhi
  constructor
  · rw [le_div_iff₀ h8]
    linarith
  · rw [div_le_iff₀ h8]
    linarith

/-- C23: for every window content each component of `GetAvgGyroValues` lies
between the minimum and the maximum of that component (column 0, 1, 2) over the
8 gyroscope slots, and each component of `GetAvgAccelValues` between the minimum
and the maximum of that component over the 8 accelerometer slots. -/
theorem C23_average_within_window_range {F : Type} [LinearOrderedField F]
    (d : WiiData F 8 8) :
    ((Finset.univ.inf' Finset.univ_nonempty (fun i => d.gyroReadings i 0) ≤
          d.GetAvgGyroValues.1 ∧
        d.GetAvgGyroValues.1 ≤
          Finset.univ.sup' Finset.univ_nonempty (fun i => d.gyroReadings i 0)) ∧
      (Finset.univ.inf' Finset.univ_nonempty (fun i => d.gyroReadings i 1) ≤
          d.GetAvgGyroValues.2.1 ∧
        d.GetAvgGyroValues.2.1 ≤
          Finset.univ.sup' Finset.univ_nonempty (fun i => d.gyroReadings i 1)) ∧
      (Finset.univ.inf' Finset.univ_nonempty (fun i => d.gyroReadings i 2) ≤
          d.GetAvgGyroValues.2.2 ∧
        d.GetAvgGyroValues.2.2 ≤
          Finset.univ.sup' Finset.univ_nonempty (fun i => d.gyroReadings i 2))) ∧
    ((Finset.univ.inf' Finset.univ_nonempty (fun i => d.accelReadings i 0) ≤
          d.GetAvgAccelValues.1 ∧
        d.GetAvgAccelValues.1 ≤
          Finset.univ.sup' Finset.univ_nonempty (fun i => d.accelReadings i 0)) ∧
      (Finset.univ.inf' Finset.univ_nonempty (fun i => d.accelReadings i 1) ≤
          d.GetAvgAccelValues.2.1 ∧
        d.GetAvgAccelValues.2.1 ≤
          Finset.univ.sup' Finset.univ_nonempty (fun i => d.accelReadings i 1)) ∧
      (Finset.univ.inf' Finset.univ_nonempty (fun i => d.accelReadings i 2) ≤
          d.GetAvgAccelValues.2.2 ∧
        d.GetAvgAccelValues.2.2 ≤
          Finset.univ.sup' Finset.univ_nonempty (fun i => d.accelReadings i 2))) := by
  rw [GetAvgGyroValues_eq_sum, GetAvgAccelValues_eq_sum]
  simp only [Nat.cast_ofNat]
  exact ⟨⟨mean_between _, mean_between _, mean_between _⟩,
    ⟨mean_between _, mean_between _, mean_between _⟩⟩

/-! ## The axes of the accelerometer sample -/

/-- C24: when `GetGravityVector` returns `(g1, g2, g3)`, in the order of its
arguments, `HandleEvent` calls `UpdateAccel(g2, g3, g1)`, and with the
accelerometer cursor at slot `m` the triple in that slot afterwards is
`(g2, g3, g1)`: a cyclic permutation, no sign change, no scaling.  The other
accelerometer slots are unchanged. -/
theorem C24_accel_axis_remap {F : Type} [Field F] [Libm F] (g : Globals F) (wm : CWiimote F)
    (k m : Fin 8) (hk : ((k : ℕ) : ℤ) = g.g_Wii.gyroReadingsIndex)
    (hm : ((m : ℕ) : ℤ) = g.g_Wii.accelReadingsIndex)
    (g1 g2 g3 : F) (hv : wm.GetGravityVector = (g1, g2, g3)) :
    (∀ w : WiiData F 8 8, HandleEvent_accel w wm =
      (w.UpdateAccel g2 g3 g1).map fun w' => (w', w'.GetAvgAccelValues)) ∧
    ∃ g', HandleEvent g wm = some g' ∧
      (g'.g_Wii.accelReadings m 0, g'.g_Wii.accelReadings m 1, g'.g_Wii.accelReadings m 2) =
        (g2, g3, g1) ∧
      ∀ j, j ≠ m → g'.g_Wii.accelReadings j = g.g_Wii.accelReadings j := by
  constructor
  · intro w
    simp only [HandleEvent_accel, hv]
    cases w.UpdateAccel g2 g3 g1 <;> rfl
  · obtain ⟨w, _, hev⟩ := HandleEvent_eq g wm k m hk hm
    refine ⟨_, hev, ?_, fun j hj => writeRow_other _ m j _ _ _ hj⟩
    obtain ⟨h0, h1, h2⟩ := writeRow_same g.g_Wii.accelReadings m g2 g3 g1
    simp only [hv, h0, h1, h2]

/-! ## Instances on concrete inputs -/

/-- Instance of C1 on nine rational samples: the first sample `(1, 10, 100)` is
evicted and the averages are those of the last eight. -/
theorem C1_gyro_average_last_eight_witness :
    8 ≤ [((1 : ℚ), (10 : ℚ), (100 : ℚ)), (2, 0, 0), (3, 0, 0), (4, 0, 0), (5, 0, 0), (6, 0, 0),
        (7, 0, 0), (8, 0, 0), (9, 0, 0)].length ∧
      ∃ d, UpdateGyro_seq (WiiData.init : WiiData ℚ 8 8)
          [(1, 10, 100), (2, 0, 0), (3, 0, 0), (4, 0, 0), (5, 0, 0), (6, 0, 0), (7, 0, 0),
            (8, 0, 0), (9, 0, 0)] = some d ∧
        d.GetAvgGyroValues = (11 / 2, 0, 0) := by
  refine ⟨by decide, ?_⟩
  obtain ⟨⟨d, hd, _, havg⟩, _⟩ := C1_gyro_average_last_eight
    [((1 : ℚ), (10 : ℚ), (100 : ℚ)), (2, 0, 0), (3, 0, 0), (4, 0, 0), (5, 0, 0), (6, 0, 0),
      (7, 0, 0), (8, 0, 0), (9, 0, 0)] (by decide)
  refine ⟨d, hd, ?_⟩
  rw [havg]
  norm_num

/-- Instance of C2 on three rational samples: the sums are divided by 8. -/
theorem C2_gyro_average_startup_witness :
    [((1 : ℚ), (0 : ℚ), (0 : ℚ)), (2, 5, 0), (3, 0, 7)].length < 8 ∧
      ∃ d, UpdateGyro_seq (WiiData.init : WiiData ℚ 8 8) [(1, 0, 0), (2, 5, 0), (3, 0, 7)] =
          some d ∧
        d.GetAvgGyroValues = (6 / 8, 5 / 8, 7 / 8) := by
  refine ⟨by decide, ?_⟩
  obtain ⟨d, hd, _, havg⟩ := C2_gyro_average_startup
    [((1 : ℚ), (0 : ℚ), (0 : ℚ)), (2, 5, 0), (3, 0, 7)] (by decide)
  refine ⟨d, hd, ?_⟩
  rw [havg]
  norm_num

/-- Instance of C7 on the initial global state and a reading with roll rate 10:
the event is handled and the smoothed roll is `10/8`. -/
theorem C7_roll_sign_inverted_witness :
    ∃ w, (WiiData.init : WiiData ℝ 8 8).UpdateGyro 0 10 0 = some w ∧
      w.GetAvgGyroValues.2.1 = 10 / 8 ∧ -w.GetAvgGyroValues.2.1 * Real.pi / 180 < 0 := by
  obtain ⟨w, _, hw, _, _, _, _, _, _, h10⟩ := C7_roll_sign_inverted
    ⟨0, 1 / 60, WiiData.init, placed_wiimote_init⟩ ⟨(10, 0, 0), (0, 0, 1)⟩
    (by simp [WiiData.init]) (by simp [WiiData.init])
  exact ⟨w, hw, h10 (fun _ _ => rfl) rfl⟩

/-- Instance of C8 on the initial global state with clocks `0` and `1/60` and
eight equal readings. -/
theorem C8_constant_yaw_scenario_witness :
    ∃ g', HandleEvent_seq (⟨0, 1 / 60, WiiData.init, placed_wiimote_init⟩ : Globals ℝ)
        (List.replicate 8 ⟨(0, 0, 90), (0, 0, 1)⟩) = some g' ∧
      g'.placed_wiimote.quaternion =
        (placed_wiimote_init : PlacedObject ℝ).quaternion *
          quat.ofEuler ⟨5 * Real.pi / 8, 0, 0⟩ := by
  obtain ⟨_, ⟨g', h1, h2, _⟩, _⟩ := C8_constant_yaw_scenario
    ⟨0, 1 / 60, WiiData.init, placed_wiimote_init⟩ (List.replicate 8 ⟨(0, 0, 90), (0, 0, 1)⟩)
    (fun _ _ => rfl) (by simp [WiiData.init]) (by simp [WiiData.init]) (by norm_num)
    (by simp) (fun e he => by rw [List.eq_of_mem_replicate he])
  exact ⟨g', h1, h2⟩

/-- Instance of C11 on the constructed state over the rationals: `(1, 2, 3)` is
stored in slot 0 and the cursor becomes 1. -/
theorem C11_accel_window_contract_witness :
    (((0 : Fin 8) : ℕ) : ℤ) = (WiiData.init : WiiData ℚ 8 8).accelReadingsIndex ∧
      ∃ d', (WiiData.init : WiiData ℚ 8 8).UpdateAccel 1 2 3 = some d' ∧
        d'.accelReadings 0 0 = 1 ∧ d'.accelReadings 0 1 = 2 ∧ d'.accelReadings 0 2 = 3 ∧
        d'.accelReadingsIndex = 1 := by
  refine ⟨by simp [WiiData.init], ?_⟩
  obtain ⟨_, ⟨d', hd, h0, h1, h2, hi⟩, _⟩ := C11_accel_window_contract
    (WiiData.init : WiiData ℚ 8 8) 1 2 3 0 (by simp [WiiData.init]) []
  exact ⟨d', hd, h0, h1, h2, by rw [hi]; simp [WiiData.init]⟩

/-- Instance of C14 (amended) on one iteration with `previous_time = 0` and the
clock reading `1/60`: one call of `HandleEvent` is logged and it satisfies the
order. -/
theorem C14_clock_order_monotone_timer_witness :
    List.Chain (fun a b : ℝ => a ≤ b) 0 [1 / 60] ∧
      (ControllerHandlerThread_while
        (⟨⟨0, 0, { (WiiData.init : WiiData ℝ 8 8) with connectedWiimotes := 1 },
          placed_wiimote_init⟩, 0, 0⟩ : ThreadState ℝ)
        [⟨1 / 60, 1, [(EventTypes.EVENT_EVENT, ⟨(0, 0, 90), (0, 0, 1)⟩)]⟩]).1.length = 1 ∧
      ∀ g ∈ (ControllerHandlerThread_while
          (⟨⟨0, 0, { (WiiData.init : WiiData ℝ 8 8) with connectedWiimotes := 1 },
            placed_wiimote_init⟩, 0, 0⟩ : ThreadState ℝ)
          [⟨1 / 60, 1, [(EventTypes.EVENT_EVENT, ⟨(0, 0, 90), (0, 0, 1)⟩)]⟩]).1,
        g.previous_time ≤ g.current_time ∧ 0 ≤ g.current_time - g.previous_time := by
  have hch : List.Chain (fun a b : ℝ => a ≤ b) 0 [1 / 60] := by
    simp only [List.chain_cons, List.Chain.nil, and_true]
    norm_num
  refine ⟨hch, ?_, C14_clock_order_monotone_timer _ _ hch⟩
  rw [while_single_log _ _ (by simp)]
  simp only [ControllerHandlerThread_body]
  simp [for_single_log]

/-- Instance of C17 on the initial global state with clocks `0` and `1/60` and a
reading of yaw rate 90: the smoothed rates are `(90/8, 0, 0)`. -/
theorem C17_HandleEvent_orientation_witness :
    ∃ w g', (WiiData.init : WiiData ℝ 8 8).UpdateGyro 90 0 0 = some w ∧
      w.GetAvgGyroValues = (90 / 8, 0, 0) ∧
      HandleEvent (⟨0, 1 / 60, WiiData.init, placed_wiimote_init⟩ : Globals ℝ)
        ⟨(0, 0, 90), (0, 0, 1)⟩ = some g' := by
  obtain ⟨w, g', hw, _, havg, hev, _⟩ := C17_HandleEvent_orientation
    ⟨0, 1 / 60, WiiData.init, placed_wiimote_init⟩ ⟨(0, 0, 90), (0, 0, 1)⟩ 0
    (by simp [WiiData.init]) (by simp [WiiData.init])
  refine ⟨w, g', hw, ?_, hev⟩
  rw [havg]
  simp [WiiData.init]

/-- Instance of C18 on the initial global state and two readings that differ in
the gravity vector only. -/
theorem C18_accel_never_reaches_pose_witness :
    ∃ g1 g2,
      HandleEvent (⟨0, 1 / 60, WiiData.init, placed_wiimote_init⟩ : Globals ℝ)
        ⟨(1, 2, 3), (0, 0, 1)⟩ = some g1 ∧
      HandleEvent (⟨0, 1 / 60, WiiData.init, placed_wiimote_init⟩ : Globals ℝ)
        ⟨(1, 2, 3), (5, 6, 7)⟩ = some g2 ∧
      g1.placed_wiimote = g2.placed_wiimote := by
  obtain ⟨g1, g2, h1, h2, _, hp, _⟩ := C18_accel_never_reaches_pose
    (⟨0, 1 / 60, WiiData.init, placed_wiimote_init⟩ : Globals ℝ)
    ⟨(1, 2, 3), (0, 0, 1)⟩ ⟨(1, 2, 3), (5, 6, 7)⟩ rfl
    (by simp [WiiData.init]) (by simp [WiiData.init])
  exact ⟨g1, g2, h1, h2, hp⟩

/-- Instance of C20 on the constructed state over the rationals. -/
theorem C20_record_frame_witness :
    ∃ d', (WiiData.init : WiiData ℚ 8 8).UpdateGyro 1 2 3 = some d' ∧
      d'.accelReadings = (WiiData.init : WiiData ℚ 8 8).accelReadings ∧
      d'.accelReadingsIndex = 0 ∧
      d'.GetAvgAccelValues = (WiiData.init : WiiData ℚ 8 8).GetAvgAccelValues := by
  obtain ⟨⟨d', hd, _, ha, hi, _, havg⟩, _⟩ := C20_record_frame
    (WiiData.init : WiiData ℚ 8 8) 1 2 3 0 (by simp [WiiData.init]) 0 (by simp [WiiData.init])
  exact ⟨d', hd, ha, by rw [hi]; rfl, havg⟩

/-- Instance of C21 over the rationals: a window full of sevens with cursor 5,
then 8 records of `(1, 2, 3)`: the average is `(1, 2, 3)`. -/
theorem C21_window_flushed_after_eight_witness :
    (0 ≤ (⟨0, fun _ _ => 7, 5, fun _ _ => 0, 0⟩ : WiiData ℚ 8 8).gyroReadingsIndex ∧
        (⟨0, fun _ _ => 7, 5, fun _ _ => 0, 0⟩ : WiiData ℚ 8 8).gyroReadingsIndex < 8) ∧
      ∃ d', UpdateGyro_seq (⟨0, fun _ _ => 7, 5, fun _ _ => 0, 0⟩ : WiiData ℚ 8 8)
          (List.replicate 8 (1, 2, 3)) = some d' ∧
        d'.GetAvgGyroValues = (1, 2, 3) := by
  refine ⟨⟨by decide, by decide⟩, ?_⟩
  exact (C21_window_flushed_after_eight
    (⟨0, fun _ _ => 7, 5, fun _ _ => 0, 0⟩ : WiiData ℚ 8 8) ⟨by decide, by decide⟩
    (List.replicate 8 (1, 2, 3)) (by simp) (1, 2, 3)).2

/-- Instance of C24 on the initial global state and the gravity vector
`(1, 2, 3)`: slot 0 of the accelerometer window becomes `(2, 3, 1)`. -/
theorem C24_accel_axis_remap_witness :
    ∃ g', HandleEvent (⟨0, 1 / 60, WiiData.init, placed_wiimote_init⟩ : Globals ℝ)
        ⟨(0, 0, 0), (1, 2, 3)⟩ = some g' ∧
      (g'.g_Wii.accelReadings 0 0, g'.g_Wii.accelReadings 0 1, g'.g_Wii.accelReadings 0 2) =
        (2, 3, 1) := by
  obtain ⟨_, g', h1, h2, _⟩ := C24_accel_axis_remap
    (⟨0, 1 / 60, WiiData.init, placed_wiimote_init⟩ : Globals ℝ) ⟨(0, 0, 0), (1, 2, 3)⟩ 0 0
    (by simp [WiiData.init]) (by simp [WiiData.init]) 1 2 3 rfl
  exact ⟨g', h1, h2⟩

end OsuMoteVR
